import Mathlib

/-!
Verification of the waved EPD driver against its specification.

This file gives a shallow embedding, in Lean 4, of the parts of the waved
driver that the specification's claims are about:

* the controller interface (`Controller::set_power`, `Controller::page_flip`,
  and the framebuffer-initialization loop of `Controller::start`), from the
  controller translation unit;
* the WBF waveform-table parser (`parse_header`, `parse_temperatures`,
  `parse_pointer`, `parse_waveform`, `parse_waveforms`,
  `WaveformTable::from_wbf`, `WaveformTable::lookup`,
  `WaveformTable::populate_mode_kind_mappings`);
* the display pipeline (`Display::push_update`, `Update::apply`,
  `Display::check_consecutive`, `Display::generate_batch`).

Machine integers are embedded as `Nat` with explicit reductions modulo
`2^32` (for `uint32`) or `256` (for `uint8`) exactly where the C++
arithmetic wraps.  Byte buffers are `List Nat` whose reads are normalized
modulo 256.  In-memory byte arrays written through pointers are embedded as
total maps `Nat → Nat` from byte offsets to byte values; `std::copy` over
such a map is embedded by its standard-specified effect (a range override).
Fallible code (C++ `throw`) is embedded with `Except`/`Option` results.
-/

namespace Waved

/-! ## Basic sizes shared by the whole driver (defs.hpp) -/

/-- Number of possible cell intensity values (`intensity_values = 1 << 5`). -/
def intensity_values : Nat := 32

/-- Phases are two-bit commands; we embed the `Phase` enum by its underlying
`uint8` value: 0 = Noop, 1 = Black, 2 = White. -/
def phaseNoop : Nat := 0

/-- Underlying value of `Phase::Black`. -/
def phaseBlack : Nat := 1

/-- Underlying value of `Phase::White`. -/
def phaseWhite : Nat := 2

/-- A `PhaseMatrix` (`std::array<std::array<Phase, 32>, 32>`) is embedded as
a total map from (row, column) to the stored phase value. -/
def PhaseMatrix : Type := Nat → Nat → Nat

/-- Write one entry of a phase matrix (`matrix[j][i] = p`). -/
def msetP (m : PhaseMatrix) (j i : Nat) (p : Nat) : PhaseMatrix :=
  fun a b => if a = j ∧ b = i then p else m a b

/-- The matrix value of a freshly declared `PhaseMatrix` local.  The C++
object is default-initialized; `parse_waveform` overwrites every entry
before any matrix is appended to its result, so this value is never
observable in parser output. -/
def matrixInit : PhaseMatrix := fun _ _ => phaseNoop

/-- A `Waveform` is an ordered sequence of phase matrices. -/
def Waveform : Type := List PhaseMatrix

/-! ## Modular machine arithmetic helpers -/

/-- Reduction of a `Nat` to a `uint32` value. -/
def m32 (x : Nat) : Nat := x % 4294967296

/-- `uint32` subtraction `a - b` (wrapping), for `a b < 2^32`. -/
def sub32 (a b : Nat) : Nat := m32 (a + 4294967296 - m32 b)

/-- `uint32` addition (wrapping). -/
def add32 (a b : Nat) : Nat := m32 (a + b)

/-- `uint32` multiplication (wrapping). -/
def mul32 (a b : Nat) : Nat := m32 (a * b)

/-! ## Controller state (controller.cpp)

The controller owns the scanout mmap, the double-buffer indices and the
power flag.  `front_buffer_index` is an `int` holding either a valid frame
index or the invalid marker `-1`. -/

/-- Mutable controller state relevant to `set_power` / `page_flip`. -/
structure CtrlState where
  power_state : Bool
  front_buffer_index : Int
  back_buffer_index : Int
deriving DecidableEq, Repr

/-- Embedding of `Controller::set_power(bool power_state)`.

The `ioctl_ok` parameter is the environment's answer to the `FBIOBLANK`
ioctl (`true` iff the ioctl returns 0).  The function body mirrors the
source: the ioctl is attempted only on a state change and the stored flag
is updated only on ioctl success; afterwards, whenever the stored flag is
off, the front buffer index is invalidated.  The source contains no
`throw`, which the embedding reflects by returning a plain state. -/
def set_power (req : Bool) (ioctl_ok : Bool) (s : CtrlState) : CtrlState :=
  let s1 := if req ≠ s.power_state then
      (if ioctl_ok then { s with power_state := req } else s)
    else s
  if s1.power_state = false then { s1 with front_buffer_index := -1 } else s1

/-- The two ioctl requests `Controller::page_flip` can issue. -/
inductive FlipRequest where
  | put_vscreeninfo
  | pan_display
deriving DecidableEq, Repr

/-- Which ioctl request `Controller::page_flip` selects: the first-frame
request `FBIOPUT_VSCREENINFO` when the front buffer index is invalid,
`FBIOPAN_DISPLAY` otherwise. -/
def page_flip_request (s : CtrlState) : FlipRequest :=
  if s.front_buffer_index = -1 then .put_vscreeninfo else .pan_display

/-- Embedding of `Controller::page_flip` (ioctl outcome supplied by the
environment; on failure the source throws, embedded as `Except.error`). -/
def page_flip (ioctl_ok : Bool) (s : CtrlState) : Except Unit CtrlState :=
  if ioctl_ok then
    .ok { s with front_buffer_index := s.back_buffer_index,
                 back_buffer_index := (s.back_buffer_index + 1) % 2 }
  else .error ()

/-! ## Controller start: framebuffer fill loop (controller.cpp)

`Controller::start` ends with a loop meant to fill each of the
`frame_count` scanout slots with the blank frame.  We embed the loop
verbatim, including both pointer variables: `fb_data` (the write target)
and `data` (the pointer left over from blank-frame preparation, which the
loop increments).  `std::copy` on raw byte pointers is embedded by its
specified effect on the byte map. -/

/-- Effect of `std::copy(src_begin, src_begin + len, dest + dpos)` on a
byte map: bytes `[dpos, dpos + len)` now come from `src`, others are
unchanged. -/
def std_copy (src : Nat → Nat) (len : Nat) (dest : Nat → Nat) (dpos : Nat) :
    Nat → Nat :=
  fun a => if dpos ≤ a ∧ a < dpos + len then src (a - dpos) else dest a

/-- The fill loop at the end of `Controller::start`:

    std::uint8_t* fb_data = this->scanout_fb;
    for (std::size_t frame = 0; frame < this->dims.frame_count; ++frame) {
        std::copy(this->blank_frame.begin(), this->blank_frame.end(), fb_data);
        data += this->dims.frame_size;
    }

`fb` is the scanout byte map, `fb_pos` the offset of `fb_data` and
`data_pos` the offset of `data`; one iteration copies the blank frame to
`fb_pos` and advances only `data_pos`. -/
def controller_start_fill_loop (blank : Nat → Nat) (frame_size : Nat)
    (fb : Nat → Nat) (fb_pos data_pos : Nat) : Nat → (Nat → Nat)
  | 0 => fb
  | n + 1 =>
      controller_start_fill_loop blank frame_size
        (std_copy blank frame_size fb fb_pos) fb_pos (data_pos + frame_size) n

/-- Entry point of the fill loop as called from `Controller::start`
(`fb_data` starts at the beginning of the scanout mapping). -/
def controller_start_fill (blank : Nat → Nat) (frame_size frame_count : Nat)
    (fb : Nat → Nat) : Nat → Nat :=
  controller_start_fill_loop blank frame_size fb 0 frame_size frame_count

/-- reMarkable 2 frame size in bytes (`stride * height = 260 * 4 * 1408`). -/
def rm2_frame_size : Nat := 260 * 4 * 1408

/-- reMarkable 2 scanout frame count. -/
def rm2_frame_count : Nat := 17

/-! ### C10 -/

/-- C10: `Controller::set_power(p)` never throws (the embedding is a total
function into plain states): if the `FBIOBLANK` ioctl fails, the stored
`power_state` field is left unchanged; and whenever the stored power state
is off after the call — including a failed attempt to power on and a
repeated power-off — `front_buffer_index` is set to the invalid marker
`-1`, so that the next `page_flip` selects the first-frame ioctl
`FBIOPUT_VSCREENINFO` rather than `FBIOPAN_DISPLAY`. -/
theorem c10_set_power_silent_failure_and_first_frame
    (req ioctl_ok : Bool) (s : CtrlState) :
    (ioctl_ok = false → (set_power req ioctl_ok s).power_state = s.power_state)
    ∧ ((set_power req ioctl_ok s).power_state = false →
        (set_power req ioctl_ok s).front_buffer_index = -1
        ∧ page_flip_request (set_power req ioctl_ok s) = .put_vscreeninfo) := by
  obtain ⟨p, f, b⟩ := s
  cases req <;> cases ioctl_ok <;> cases p <;>
    simp [set_power, page_flip_request]

/-- Witness for C10 at a concrete state: a failed power-on attempt from the
off state leaves the power off, invalidates the front index and routes the
next flip to `FBIOPUT_VSCREENINFO`. -/
theorem c10_witness :
    (false = false →
      (set_power true false ⟨false, 0, 1⟩).power_state = (⟨false, 0, 1⟩ : CtrlState).power_state)
    ∧ ((set_power true false ⟨false, 0, 1⟩).power_state = false →
        (set_power true false ⟨false, 0, 1⟩).front_buffer_index = -1
        ∧ page_flip_request (set_power true false ⟨false, 0, 1⟩) = .put_vscreeninfo) :=
  c10_set_power_silent_failure_and_first_frame true false ⟨false, 0, 1⟩

/-! ### C6 -/

/-- C6 (code evaluated at the failing input): the fill loop of
`Controller::start` never advances its write pointer — the loop increments
the leftover `data` pointer instead of `fb_data` — so after `start()` on
the reMarkable 2 dimensions only slot 0 holds the blank frame: every byte
of every other slot (in particular the first byte of slot 1, at offset
`frame_size`) still holds its previous scanout content, not the blank
frame. -/
theorem c6_fill_loop_leaves_slot1_untouched :
    (∀ fb : Nat → Nat, ∀ a : Nat, rm2_frame_size ≤ a →
      controller_start_fill (fun _ => 0) rm2_frame_size rm2_frame_count fb a = fb a)
    ∧ controller_start_fill (fun _ => 0) rm2_frame_size rm2_frame_count
        (fun _ => 111) rm2_frame_size = 111 := by
  have key : ∀ (n : Nat) (fb : Nat → Nat) (dpos : Nat) (a : Nat), rm2_frame_size ≤ a →
      controller_start_fill_loop (fun _ => 0) rm2_frame_size fb 0 dpos n a = fb a := by
    intro n
    induction n with
    | zero => intro fb dpos a _; rfl
    | succ k ih =>
        intro fb dpos a ha
        show controller_start_fill_loop _ _ (std_copy _ _ fb 0) 0 _ k a = fb a
        rw [ih _ _ a ha]
        simp only [std_copy]
        rw [if_neg]
        intro hcon
        exact absurd hcon.2 (by simpa using ha)
  refine ⟨fun fb a ha => key _ fb _ a ha, ?_⟩
  exact key rm2_frame_count (fun _ => 111) rm2_frame_size rm2_frame_size le_rfl

/-! ## Waveform table and lookup (waveform_table.hpp / waveform_table.cpp) -/

/-- Semantic mode classification (`enum class ModeKind`). -/
inductive ModeKind where
  | UNKNOWN
  | INIT
  | DU
  | DU4
  | A2
  | GC16
  | GLR16
deriving DecidableEq, Repr

/-- In-memory waveform table.  `temperatures` holds `int8` values embedded
as `Int`; `waveform_lookup` is the per-mode, per-temperature-range
indirection into `waveforms`; `mode_id_by_kind` embeds the
`std::unordered_map<ModeKind, ModeID>` as an association list in insertion
order. -/
structure WaveformTable where
  frame_rate : Nat
  mode_count : Nat
  temperatures : List Int
  waveforms : List Waveform
  waveform_lookup : List (List Nat)
  mode_kind_by_id : List ModeKind
  mode_id_by_kind : List (ModeKind × Nat)

/-- Errors thrown by `WaveformTable::lookup` (all `std::out_of_range`). -/
inductive LookupError where
  | unsupportedMode
  | noTemperature
  | temperatureTooLow
  | temperatureTooHigh
deriving DecidableEq, Repr

/-- Result of `std::upper_bound` over a sorted `std::vector<Temperature>`:
the index of the first element greater than `t` (the standard-specified
postcondition of the library call on a partitioned range). -/
def upperBoundIdx (l : List Int) (t : Int) : Nat :=
  (l.takeWhile (fun x => decide (x ≤ t))).length

/-- Embedding of `WaveformTable::lookup(ModeID mode, int temperature)`.
The mode is the `uint8` value of the `ModeID` argument (so the source's
`mode < 0` branch cannot fire and is dropped); the temperature is the
`int` argument.  Mirrors the source: mode range check, clamping of
out-of-`int8`-range temperatures to the extreme iterators, upper-bound
search, the two boundary checks, then the double indexing
`waveforms[waveform_lookup[mode][range]]` (unchecked in C++, embedded with
`getD`). -/
def lookup (tbl : WaveformTable) (mode : Nat) (temperature : Int) :
    Except LookupError Waveform :=
  if tbl.mode_count ≤ mode then .error .unsupportedMode
  else
    let it : Nat :=
      if temperature < -128 then 0
      else if 127 < temperature then tbl.temperatures.length
      else upperBoundIdx tbl.temperatures temperature
    if it = 0 then
      (if tbl.temperatures.isEmpty then .error .noTemperature
       else .error .temperatureTooLow)
    else if it = tbl.temperatures.length then .error .temperatureTooHigh
    else
      .ok ((tbl.waveforms).getD
        ((tbl.waveform_lookup.getD mode []).getD (it - 1) 0) [])

theorem upperBoundIdx_nil (t : Int) : upperBoundIdx [] t = 0 := rfl

theorem upperBoundIdx_cons (a : Int) (l : List Int) (t : Int) :
    upperBoundIdx (a :: l) t =
      if a ≤ t then upperBoundIdx l t + 1 else 0 := by
  simp only [upperBoundIdx, List.takeWhile]
  by_cases h : a ≤ t <;> simp [h]

theorem upperBoundIdx_le_length (l : List Int) (t : Int) :
    upperBoundIdx l t ≤ l.length := by
  induction l with
  | nil => simp [upperBoundIdx_nil]
  | cons a l ih =>
      rw [upperBoundIdx_cons]
      split
      · simpa using ih
      · simp

theorem listGetD_mem {α : Type} (l : List α) (i : Nat) (d : α)
    (h : i < l.length) : l.getD i d ∈ l := by
  induction l generalizing i with
  | nil => simp at h
  | cons a l ih =>
      cases i with
      | zero => simp
      | succ j =>
          simp only [List.getD_cons_succ]
          exact List.mem_cons_of_mem a (ih j (by simpa using h))

theorem upperBoundIdx_pos_iff (l : List Int) (t : Int) (hne : l ≠ []) :
    0 < upperBoundIdx l t ↔ l.getD 0 0 ≤ t := by
  cases l with
  | nil => exact absurd rfl hne
  | cons a l =>
      rw [upperBoundIdx_cons]
      split <;> simp_all

/-- On a strictly ascending nonempty list, the head is at most the last
element. -/
theorem sorted_head_le_last (l : List Int)
    (hs : List.Pairwise (· < ·) l) (hne : l ≠ []) :
    l.getD 0 0 ≤ l.getD (l.length - 1) 0 := by
  cases l with
  | nil => exact absurd rfl hne
  | cons a l =>
      rcases List.pairwise_cons.1 hs with ⟨ha, _⟩
      cases l with
      | nil => simp
      | cons b l' =>
          have hlen : (a :: b :: l').length - 1 = l'.length + 1 := by simp
          rw [hlen]
          simp only [List.getD_cons_zero, List.getD_cons_succ]
          have hmem : (b :: l').getD l'.length 0 ∈ b :: l' :=
            listGetD_mem _ _ _ (by simp)
          exact le_of_lt (ha _ hmem)

/-- On a strictly ascending nonempty list, the upper bound falls short of
the end iff the probe is below the last element. -/
theorem upperBoundIdx_lt_length_iff (l : List Int) (t : Int) :
    List.Pairwise (· < ·) l → l ≠ [] →
    (upperBoundIdx l t < l.length ↔ t < l.getD (l.length - 1) 0) := by
  induction l with
  | nil => intro _ hne; exact absurd rfl hne
  | cons a l ih =>
      intro hs _
      rw [upperBoundIdx_cons]
      rcases List.pairwise_cons.1 hs with ⟨ha, hl⟩
      by_cases hat : a ≤ t
      · rw [if_pos hat]
        cases l with
        | nil =>
            have hgd : ([a] : List Int).getD ([a].length - 1) 0 = a := rfl
            rw [hgd]
            simp only [upperBoundIdx_nil, List.length_cons, List.length_nil]
            omega
        | cons b l' =>
            have step := ih hl (by simp)
            have hlen : (a :: b :: l').length - 1 = (b :: l').length - 1 + 1 := by
              simp
            rw [hlen, List.getD_cons_succ, ← step]
            simp only [List.length_cons]
            omega
      · rw [if_neg hat]
        have hmem : (a :: l).getD ((a :: l).length - 1) 0 ∈ a :: l :=
          listGetD_mem _ _ _ (by simp)
        have hle : a ≤ (a :: l).getD ((a :: l).length - 1) 0 := by
          rcases List.mem_cons.1 hmem with h | h
          · omega
          · exact le_of_lt (ha _ h)
        constructor
        · intro _; omega
        · intro _; simp

/-- On a strictly ascending list, the upper bound of the `i`-th element
(`i` before the last index) is `i + 1`: equality lands in the upper
range. -/
theorem upperBoundIdx_at_elem (l : List Int) :
    ∀ i : Nat, List.Pairwise (· < ·) l → i + 1 < l.length →
    upperBoundIdx l (l.getD i 0) = i + 1 := by
  induction l with
  | nil => intro i _ hi; simp at hi
  | cons a l ih =>
      intro i hs hi
      rcases List.pairwise_cons.1 hs with ⟨ha, hl⟩
      cases i with
      | zero =>
          simp only [List.getD_cons_zero]
          rw [upperBoundIdx_cons, if_pos le_rfl]
          cases l with
          | nil => simp at hi
          | cons b l' =>
              rw [upperBoundIdx_cons, if_neg]
              have := ha b (by simp)
              omega
      | succ j =>
          simp only [List.getD_cons_succ]
          rw [upperBoundIdx_cons, if_pos]
          · rw [ih j hl (by simpa using hi)]
          · have hmem : l.getD j 0 ∈ l :=
              listGetD_mem _ _ _ (by simp at hi; omega)
            exact le_of_lt (ha _ hmem)

/-! ### C1 -/

/-- C1: for every loaded waveform table (strictly ascending `int8`
temperature thresholds, at least one threshold), `lookup(m, t)` selects
the temperature range by strict upper-bound search: it errors with an
out-of-range exception exactly when `m` is not a valid mode id, or `t` is
below `temperatures[0]`, or `t` is at or above the last threshold; and for
`i` before the last index, `t = temperatures[i]` selects range `i` and
returns the waveform indexed by `waveform_lookup[m][i]`. -/
theorem c1_lookup_upper_bound_semantics (tbl : WaveformTable)
    (hs : List.Pairwise (· < ·) tbl.temperatures)
    (hne : tbl.temperatures ≠ [])
    (hlo : ∀ x ∈ tbl.temperatures, -128 ≤ x)
    (hhi : ∀ x ∈ tbl.temperatures, x ≤ 127) :
    (∀ (m : Nat) (t : Int),
      (lookup tbl m t).isOk = false ↔
        (tbl.mode_count ≤ m ∨ t < tbl.temperatures.getD 0 0
          ∨ tbl.temperatures.getD (tbl.temperatures.length - 1) 0 ≤ t))
    ∧ (∀ m : Nat, m < tbl.mode_count → ∀ i : Nat,
        i + 1 < tbl.temperatures.length →
        lookup tbl m (tbl.temperatures.getD i 0) =
          .ok (tbl.waveforms.getD
            ((tbl.waveform_lookup.getD m []).getD i 0) [])) := by
  have hlen0 : 0 < tbl.temperatures.length := List.length_pos.2 hne
  have hnotempty : tbl.temperatures.isEmpty = false := by
    cases htl : tbl.temperatures with
    | nil => exact absurd htl hne
    | cons a l => rfl
  have hfirst_mem : tbl.temperatures.getD 0 0 ∈ tbl.temperatures :=
    listGetD_mem _ _ _ hlen0
  have hlast_mem : tbl.temperatures.getD (tbl.temperatures.length - 1) 0
      ∈ tbl.temperatures :=
    listGetD_mem _ _ _ (by omega)
  have hfirst_le_last : tbl.temperatures.getD 0 0 ≤
      tbl.temperatures.getD (tbl.temperatures.length - 1) 0 :=
    sorted_head_le_last _ hs hne
  constructor
  · intro m t
    by_cases hm : tbl.mode_count ≤ m
    · rw [lookup, if_pos hm]
      exact iff_of_true rfl (Or.inl hm)
    · rw [lookup, if_neg hm]
      by_cases h1 : t < -128
      · have hta : t < tbl.temperatures.getD 0 0 := by
          have := hlo _ hfirst_mem
          omega
        simp only [if_pos h1, if_pos rfl, hnotempty, Bool.false_eq_true,
          if_false]
        exact iff_of_true rfl (Or.inr (Or.inl hta))
      · by_cases h2 : (127 : Int) < t
        · have htb : tbl.temperatures.getD (tbl.temperatures.length - 1) 0 ≤ t := by
            have := hhi _ hlast_mem
            omega
          simp only [if_neg h1, if_pos h2,
            if_neg (by omega : ¬ tbl.temperatures.length = 0), if_pos rfl]
          exact iff_of_true rfl (Or.inr (Or.inr htb))
        · simp only [if_neg h1, if_neg h2]
          by_cases hz : upperBoundIdx tbl.temperatures t = 0
          · have hta : t < tbl.temperatures.getD 0 0 := by
              have := (upperBoundIdx_pos_iff tbl.temperatures t hne).not
              omega
            simp only [if_pos hz, hnotempty, Bool.false_eq_true, if_false]
            exact iff_of_true rfl (Or.inr (Or.inl hta))
          · by_cases hfull : upperBoundIdx tbl.temperatures t =
                tbl.temperatures.length
            · have htb : tbl.temperatures.getD
                  (tbl.temperatures.length - 1) 0 ≤ t := by
                have := (upperBoundIdx_lt_length_iff tbl.temperatures t hs hne).not
                have hle := upperBoundIdx_le_length tbl.temperatures t
                omega
              simp only [if_neg hz, if_pos hfull]
              exact iff_of_true rfl (Or.inr (Or.inr htb))
            · have hlt : upperBoundIdx tbl.temperatures t <
                  tbl.temperatures.length :=
                lt_of_le_of_ne (upperBoundIdx_le_length _ _) hfull
              have hta : tbl.temperatures.getD 0 0 ≤ t :=
                (upperBoundIdx_pos_iff tbl.temperatures t hne).mp (by omega)
              have htb : t < tbl.temperatures.getD
                  (tbl.temperatures.length - 1) 0 :=
                (upperBoundIdx_lt_length_iff tbl.temperatures t hs hne).mp hlt
              simp only [if_neg hz, if_neg hfull]
              refine iff_of_false (by simp [Except.isOk, Except.toBool]) ?_
              omega
  · intro m hm i hi
    have hmem : tbl.temperatures.getD i 0 ∈ tbl.temperatures :=
      listGetD_mem _ _ _ (by omega)
    have h1 : ¬ (tbl.temperatures.getD i 0 < -128) := by
      have := hlo _ hmem; omega
    have h2 : ¬ ((127 : Int) < tbl.temperatures.getD i 0) := by
      have := hhi _ hmem; omega
    have hub : upperBoundIdx tbl.temperatures (tbl.temperatures.getD i 0) =
        i + 1 := upperBoundIdx_at_elem tbl.temperatures i hs hi
    simp only [lookup, if_neg (by omega : ¬ tbl.mode_count ≤ m),
      if_neg h1, if_neg h2, hub]
    simp only [if_neg (by omega : ¬ i + 1 = 0),
      if_neg (by omega : ¬ i + 1 = tbl.temperatures.length)]
    simp

/-- Witness for C1: a concrete two-threshold table. -/
theorem c1_witness :
    (List.Pairwise (· < ·) ([0, 40] : List Int)
      ∧ ([0, 40] : List Int) ≠ []
      ∧ (∀ x ∈ ([0, 40] : List Int), -128 ≤ x)
      ∧ (∀ x ∈ ([0, 40] : List Int), x ≤ 127))
    ∧ ((∀ (m : Nat) (t : Int),
      (lookup ⟨85, 1, [0, 40], [[]], [[0]], [], []⟩ m t).isOk = false ↔
        ((1 : Nat) ≤ m ∨ t < ([0, 40] : List Int).getD 0 0
          ∨ ([0, 40] : List Int).getD (([0, 40] : List Int).length - 1) 0 ≤ t))
    ∧ (∀ m : Nat, m < 1 → ∀ i : Nat,
        i + 1 < ([0, 40] : List Int).length →
        lookup ⟨85, 1, [0, 40], [[]], [[0]], [], []⟩ m
            (([0, 40] : List Int).getD i 0) =
          .ok ((([[]] : List Waveform)).getD
            ((([[0]] : List (List Nat)).getD m []).getD i 0) []))) :=
  ⟨⟨by decide, by decide, by decide, by decide⟩,
    c1_lookup_upper_bound_semantics ⟨85, 1, [0, 40], [[]], [[0]], [], []⟩
      (by decide) (by decide) (by decide) (by decide)⟩

/-! ## Waveform block decoding (`parse_waveform`)

A waveform block is a run-length encoded stream of 2-bit phases.  The
source iterates over `[begin, end - 2)` with a toggleable repeat mode; we
embed the iterator pair as a byte list (the `end -= 2` drops the final two
bytes) and the loop as structural recursion consuming one or two list
cells per step. -/

/-- The filling of the 32×32 phase matrix for one decoded quadruple,
executed `reps` times (the C++ `for (int n = 0; n < repeat; ++n)` loop):

    matrix[j++][i] = p1; matrix[j++][i] = p2;
    matrix[j++][i] = p3; matrix[j++][i] = p4;
    if (j == intensity_values) { j = 0; ++i; }
    if (i == intensity_values) { i = 0; result.push_back(matrix); }

Returns the updated `(i, j, matrix, result)`.  The arguments `p1..p4` are
the four phase values in the order they are written (row `j` advancing
fastest). -/
def fillQuad : Nat → Nat → Nat → PhaseMatrix → List PhaseMatrix →
    Nat → Nat → Nat → Nat → Nat × Nat × PhaseMatrix × List PhaseMatrix
  | 0, i, j, m, acc, _, _, _, _ => (i, j, m, acc)
  | n + 1, i, j, m, acc, p1, p2, p3, p4 =>
      let m4 := msetP (msetP (msetP (msetP m j i p1) (j + 1) i p2)
        (j + 2) i p3) (j + 3) i p4
      let j' := j + 4
      let i1 := if j' = intensity_values then i + 1 else i
      let j1 := if j' = intensity_values then 0 else j'
      let acc1 := if i1 = intensity_values then acc ++ [m4] else acc
      let i2 := if i1 = intensity_values then 0 else i1
      fillQuad n i2 j1 m4 acc1 p1 p2 p3 p4

/-- Main loop of `parse_waveform`.  One iteration reads a byte; `0xFC`
toggles repeat mode; otherwise the byte's four 2-bit fields are extracted
(`p4 = byte & 3`, `p3 = (byte >> 2) & 3`, `p2 = (byte >> 4) & 3`,
`p1 = byte >> 6`); in repeat mode with bytes remaining, the next byte is
read as `repetitions - 1` and a data byte of `0xFF` terminates the block;
otherwise the repetition count is one.  The quadruple is written in the
order `p1, p2, p3, p4`. -/
def parse_waveform_loop : List Nat → Bool → Nat → Nat → PhaseMatrix →
    List PhaseMatrix → List PhaseMatrix
  | [], _, _, _, _, acc => acc
  | b :: rest, repeat_mode, i, j, matrix, acc =>
      let byte := b % 256
      if byte = 0xFC then
        parse_waveform_loop rest (!repeat_mode) i j matrix acc
      else
        let p4 := byte &&& 3
        let p3 := (byte >>> 2) &&& 3
        let p2 := (byte >>> 4) &&& 3
        let p1 := byte >>> 6
        if repeat_mode then
          match rest with
          | r :: rest' =>
              if byte = 0xFF then acc
              else
                match fillQuad (r % 256 + 1) i j matrix acc p1 p2 p3 p4 with
                | (i', j', m', acc') =>
                    parse_waveform_loop rest' true i' j' m' acc'
          | [] =>
              -- repeat mode with no following byte: the repetition count
              -- stays 1 and the loop exits right after this iteration;
              -- the next iteration on the empty list is unrolled here
              (fillQuad 1 i j matrix acc p1 p2 p3 p4).2.2.2
        else
          match fillQuad 1 i j matrix acc p1 p2 p3 p4 with
          | (i', j', m', acc') =>
              parse_waveform_loop rest false i' j' m' acc'

/-- Embedding of `parse_waveform(begin, end)`: drop the last two bytes
(`end -= 2`) and run the loop with repeat mode initially on and a fresh
matrix. -/
def parse_waveform (bytes : List Nat) : Waveform :=
  parse_waveform_loop (bytes.dropLast.dropLast) true 0 0 matrixInit []

/-- Decoder written from the claim's words, "the rightmost bit-pair is the
first phase": identical run-length scheme, but the first phase written is
`byte & 3`, then `(byte >> 2) & 3`, `(byte >> 4) & 3`, and `byte >> 6`
last. -/
def parse_waveform_claim_loop : List Nat → Bool → Nat → Nat → PhaseMatrix →
    List PhaseMatrix → List PhaseMatrix
  | [], _, _, _, _, acc => acc
  | b :: rest, repeat_mode, i, j, matrix, acc =>
      let byte := b % 256
      if byte = 0xFC then
        parse_waveform_claim_loop rest (!repeat_mode) i j matrix acc
      else
        let first := byte &&& 3
        let second := (byte >>> 2) &&& 3
        let third := (byte >>> 4) &&& 3
        let fourth := byte >>> 6
        if repeat_mode then
          match rest with
          | r :: rest' =>
              if byte = 0xFF then acc
              else
                match fillQuad (r % 256 + 1) i j matrix acc
                    first second third fourth with
                | (i', j', m', acc') =>
                    parse_waveform_claim_loop rest' true i' j' m' acc'
          | [] =>
              -- repeat mode with no following byte: the repetition count
              -- stays 1 and the loop exits right after this iteration;
              -- the next iteration on the empty list is unrolled here
              (fillQuad 1 i j matrix acc first second third fourth).2.2.2
        else
          match fillQuad 1 i j matrix acc first second third fourth with
          | (i', j', m', acc') =>
              parse_waveform_claim_loop rest false i' j' m' acc'

/-- The claim's decoder (rightmost bit-pair first). -/
def parse_waveform_claim (bytes : List Nat) : Waveform :=
  parse_waveform_claim_loop (bytes.dropLast.dropLast) true 0 0 matrixInit []

/-- Decoder written from the amended claim's words, "the leftmost
(most significant) bit-pair is the first phase": the first phase written
is `byte >> 6`, then `(byte >> 4) & 3`, `(byte >> 2) & 3`, and `byte & 3`
last. -/
def parse_waveform_amended_loop : List Nat → Bool → Nat → Nat → PhaseMatrix →
    List PhaseMatrix → List PhaseMatrix
  | [], _, _, _, _, acc => acc
  | b :: rest, repeat_mode, i, j, matrix, acc =>
      let byte := b % 256
      if byte = 0xFC then
        parse_waveform_amended_loop rest (!repeat_mode) i j matrix acc
      else
        let first := byte >>> 6
        let second := (byte >>> 4) &&& 3
        let third := (byte >>> 2) &&& 3
        let fourth := byte &&& 3
        if repeat_mode then
          match rest with
          | r :: rest' =>
              if byte = 0xFF then acc
              else
                match fillQuad (r % 256 + 1) i j matrix acc
                    first second third fourth with
                | (i', j', m', acc') =>
                    parse_waveform_amended_loop rest' true i' j' m' acc'
          | [] =>
              -- repeat mode with no following byte: the repetition count
              -- stays 1 and the loop exits right after this iteration;
              -- the next iteration on the empty list is unrolled here
              (fillQuad 1 i j matrix acc first second third fourth).2.2.2
        else
          match fillQuad 1 i j matrix acc first second third fourth with
          | (i', j', m', acc') =>
              parse_waveform_amended_loop rest false i' j' m' acc'

/-- The amended claim's decoder (leftmost bit-pair first). -/
def parse_waveform_amended (bytes : List Nat) : Waveform :=
  parse_waveform_amended_loop (bytes.dropLast.dropLast) true 0 0 matrixInit []

/-! ### C3 -/

set_option maxRecDepth 20000 in
/-- C3 (counterexample): the claim-as-stated decoder (rightmost bit-pair
first) disagrees with `parse_waveform` on the block `[0x01, 0xFF, 0, 0]`
(one data byte `0x01` repeated 256 times, filling exactly one matrix, plus
the two dropped trailer bytes): the first phase written — matrix entry
(row 0, column 0) — is `Noop` (`byte >> 6`) in the source but `Black`
(`byte & 3`) per the claim. -/
theorem c3_counterexample :
    ((parse_waveform [1, 255, 0, 0]).getD 0 matrixInit) 0 0 = phaseNoop
    ∧ ((parse_waveform_claim [1, 255, 0, 0]).getD 0 matrixInit) 0 0 = phaseBlack
    ∧ (parse_waveform [1, 255, 0, 0]).length = 1
    ∧ (parse_waveform_claim [1, 255, 0, 0]).length = 1
    ∧ parse_waveform [1, 255, 0, 0] ≠ parse_waveform_claim [1, 255, 0, 0] := by
  refine ⟨by decide, by decide, by decide, by decide, ?_⟩
  intro h
  have h1 : ((parse_waveform [1, 255, 0, 0]).getD 0 matrixInit) 0 0 =
      phaseNoop := by decide
  have h2 : ((parse_waveform_claim [1, 255, 0, 0]).getD 0 matrixInit) 0 0 =
      phaseBlack := by decide
  rw [h] at h1
  rw [h1] at h2
  exact absurd h2 (by decide)

/-- C3 (amended): `parse_waveform` implements the run-length scheme with
the **leftmost** bit-pair of each data byte as the first phase (and the
rightmost as the last): the byte `0xFC` toggles repeat mode; in repeat
mode each data byte is followed by one byte interpreted as
`repetitions - 1` and a data byte of `0xFF` in the prefix position
terminates the block; in non-repeat mode the implicit repetition is one;
decoded quadruples fill the 32×32 matrix with the row index advancing
fastest until 32 and then the column advancing, each full matrix being
appended to the waveform. -/
theorem c3_decoder_matches_amended_spec (bytes : List Nat) :
    parse_waveform bytes = parse_waveform_amended bytes := by
  suffices h : ∀ (n : Nat) (l : List Nat), l.length ≤ n →
      ∀ (rm : Bool) (i j : Nat) (m : PhaseMatrix) (acc : List PhaseMatrix),
      parse_waveform_loop l rm i j m acc =
        parse_waveform_amended_loop l rm i j m acc by
    exact h _ _ le_rfl true 0 0 matrixInit []
  intro n
  induction n with
  | zero =>
      intro l hl rm i j m acc
      rw [List.length_eq_zero.mp (Nat.le_zero.mp hl)]
      rfl
  | succ k ih =>
      intro l hl rm i j m acc
      cases l with
      | nil => rfl
      | cons b rest =>
          simp only [parse_waveform_loop, parse_waveform_amended_loop]
          by_cases hfc : b % 256 = 0xFC
          · simp only [if_pos hfc]
            exact ih rest (by simpa using hl) (!rm) i j m acc
          · simp only [if_neg hfc]
            cases rm with
            | false =>
                simp only [Bool.false_eq_true, if_false]
                exact ih rest (by simpa using hl) false _ _ _ _
            | true =>
                simp only [if_true]
                cases rest with
                | nil => rfl
                | cons r rest' =>
                    by_cases hff : b % 256 = 0xFF
                    · simp only [if_pos hff]
                    · simp only [if_neg hff]
                      exact ih rest' (by simp at hl; omega) true _ _ _ _

/-! ## Display constants (display.hpp) -/

/-- Number of frame pixels in a row of the scanout buffer. -/
def buf_width : Nat := 260

/-- Bytes per frame pixel. -/
def buf_depth : Nat := 4

/-- Bytes per row (`buf_width * buf_depth`). -/
def buf_stride : Nat := buf_width * buf_depth

/-- Actual display pixels per frame pixel. -/
def buf_actual_depth : Nat := 8

/-- Rows per frame. -/
def buf_height : Nat := 1408

/-- Total frame size in bytes (`buf_stride * buf_height`). -/
def buf_frame : Nat := buf_stride * buf_height

/-- Top margin of unused rows. -/
def margin_top : Nat := 3

/-- Bottom margin of unused rows. -/
def margin_bottom : Nat := 1

/-- Left margin of unused frame pixels. -/
def margin_left : Nat := 26

/-- Right margin of unused frame pixels. -/
def margin_right : Nat := 0

/-- Visible panel width in actual pixels
(`(buf_width - margin_left - margin_right) * buf_actual_depth = 1872`). -/
def epd_width : Nat := (buf_width - margin_left - margin_right) * buf_actual_depth

/-- Visible panel height (`buf_height - margin_top - margin_bottom = 1404`). -/
def epd_height : Nat := buf_height - margin_top - margin_bottom

/-- Number of visible panel pixels. -/
def epd_size : Nat := epd_width * epd_height

/-! ## Update model (update.hpp / update.cpp, display.hpp) -/

/-- `Region<uint32_t>`: all four fields are `uint32` values. -/
structure UpdateRegion where
  top : Nat
  left : Nat
  width : Nat
  height : Nat
deriving DecidableEq, Repr, Inhabited

/-- One display update request. -/
structure Update where
  id : List Nat
  mode : Nat
  immediate : Bool
  region : UpdateRegion
  buffer : List Nat
deriving Repr, Inhabited

/-- One row copied by the `std::copy(source, source + width, dest)` call
inside `copy_rect`: `width` consecutive entries of the destination map
starting at `dpos` now come from the source list starting at `spos`. -/
def copy_row (src : List Nat) (spos width : Nat) (dest : Nat → Nat)
    (dpos : Nat) : Nat → Nat :=
  fun a => if dpos ≤ a ∧ a < dpos + width then src.getD (spos + (a - dpos)) 0
    else dest a

/-- The row loop of `copy_rect` (update.cpp): per row, copy `width` units
and advance the source position by `src_width` and the destination
position by `dest_width`. -/
def copy_rect_loop (src : List Nat) (width src_width dest_width : Nat) :
    (Nat → Nat) → Nat → Nat → Nat → (Nat → Nat)
  | dest, _, _, 0 => dest
  | dest, spos, dpos, h + 1 =>
      copy_rect_loop src width src_width dest_width
        (copy_row src spos width dest dpos) (spos + src_width)
        (dpos + dest_width) h

/-- Embedding of `copy_rect(source, source_region, source_width, dest,
dest_top, dest_left, dest_width)` with the source being an intensity
vector and the destination a map. -/
def copy_rect (src : List Nat) (src_top src_left width height src_width : Nat)
    (dest : Nat → Nat) (dest_top dest_left dest_width : Nat) : Nat → Nat :=
  copy_rect_loop src width src_width dest_width dest
    (src_left + src_width * src_top) (dest_left + dest_width * dest_top) height

/-- Embedding of `Update::apply(target, target_width)`: copy the whole
buffer rectangle to `(region.top, region.left)` of the target. -/
def update_apply (u : Update) (target : Nat → Nat) (target_width : Nat) :
    Nat → Nat :=
  copy_rect u.buffer 0 0 u.region.width u.region.height u.region.width
    target u.region.top u.region.left target_width

/-! ## push_update (display.cpp)

`Display::push_update(ModeID, bool, UpdateRegion, buffer)` validates the
buffer size, transforms the update from client (reMarkable) coordinates to
panel (EPD) coordinates, validates the transformed region and enqueues the
update.  The region arithmetic is `uint32` arithmetic and is embedded with
the wrapping helpers. -/

/-- Display state affected by `push_update`: the pending update queue and
the monotonically increasing `next_update_id` counter. -/
structure DState where
  pending : List Update
  next_update_id : Nat
deriving Repr, Inhabited

/-- Embedding of the `ModeID` overload of `Display::push_update`. -/
def push_update (mode : Nat) (immediate : Bool) (region : UpdateRegion)
    (buffer : List Nat) (st : DState) : Bool × DState :=
  if buffer.length ≠ mul32 region.width region.height then (false, st)
  else
    let trans_buffer : List Nat :=
      (List.range buffer.length).map (fun k =>
        let i := region.height - (k % region.height) - 1
        let j := region.width - (k / region.height) - 1
        (buffer.getD (i * region.width + j) 0) &&& (intensity_values - 1))
    let region2 : UpdateRegion :=
      { top := sub32 (sub32 epd_height region.left) region.width
        left := sub32 (sub32 epd_width region.top) region.height
        width := region.height
        height := region.width }
    if epd_width ≤ region2.left ∨ epd_height ≤ region2.top
        ∨ epd_width < add32 region2.left region2.width
        ∨ epd_height < add32 region2.top region2.height then
      (false, st)
    else
      (true, { pending := st.pending ++
                 [{ id := [st.next_update_id], mode := mode,
                    immediate := immediate, region := region2,
                    buffer := trans_buffer }],
               next_update_id := st.next_update_id + 1 })

/-! ### C5 -/

/-- The panel-space region `push_update` computes from a client region,
in the source's `uint32` arithmetic. -/
def transformed_region (region : UpdateRegion) : UpdateRegion :=
  { top := sub32 (sub32 epd_height region.left) region.width
    left := sub32 (sub32 epd_width region.top) region.height
    width := region.height
    height := region.width }

/-- The bounds check `push_update` applies to the transformed region
(in `uint32` arithmetic). -/
def transformed_out_of_bounds (region : UpdateRegion) : Prop :=
  epd_width ≤ (transformed_region region).left
    ∨ epd_height ≤ (transformed_region region).top
    ∨ epd_width < add32 (transformed_region region).left
        (transformed_region region).width
    ∨ epd_height < add32 (transformed_region region).top
        (transformed_region region).height

instance (region : UpdateRegion) : Decidable (transformed_out_of_bounds region) := by
  unfold transformed_out_of_bounds
  infer_instance

/-- The permuted buffer `push_update` computes. -/
def transformed_buffer (region : UpdateRegion) (buffer : List Nat) : List Nat :=
  (List.range buffer.length).map (fun k =>
    let i := region.height - (k % region.height) - 1
    let j := region.width - (k / region.height) - 1
    (buffer.getD (i * region.width + j) 0) &&& (intensity_values - 1))

theorem push_update_eq_accept (mode : Nat) (imm : Bool) (region : UpdateRegion)
    (buffer : List Nat) (st : DState)
    (h1 : buffer.length = mul32 region.width region.height)
    (h2 : ¬ transformed_out_of_bounds region) :
    push_update mode imm region buffer st =
      (true, { pending := st.pending ++
                 [{ id := [st.next_update_id], mode := mode,
                    immediate := imm, region := transformed_region region,
                    buffer := transformed_buffer region buffer }],
               next_update_id := st.next_update_id + 1 }) := by
  unfold push_update transformed_out_of_bounds transformed_region
    transformed_buffer at *
  rw [if_neg (fun h => h h1), if_neg h2]

theorem push_update_eq_reject_len (mode : Nat) (imm : Bool)
    (region : UpdateRegion) (buffer : List Nat) (st : DState)
    (h1 : buffer.length ≠ mul32 region.width region.height) :
    push_update mode imm region buffer st = (false, st) := by
  unfold push_update
  rw [if_pos h1]

theorem push_update_eq_reject_bounds (mode : Nat) (imm : Bool)
    (region : UpdateRegion) (buffer : List Nat) (st : DState)
    (h1 : buffer.length = mul32 region.width region.height)
    (h2 : transformed_out_of_bounds region) :
    push_update mode imm region buffer st = (false, st) := by
  unfold push_update transformed_out_of_bounds transformed_region at *
  rw [if_neg (fun h => h h1), if_pos h2]

/-- C5 (counterexample): with client region `top = 1000`, `left = 0`,
`width = 1`, `height = 2^32 - 500` and a matching row-major buffer,
`push_update` *accepts* the update — the `uint32` additions in the bounds
check wrap around (`left' + width' = 1372 + 4294966796 ≡ 872 (mod 2^32)`)
— even though the enqueued panel-space region extends far beyond the
panel (`left' + width' > epd_width` as integers), contradicting the claim
that a transform falling outside the panel bounds is always rejected. -/
theorem c5_counterexample :
    (push_update 2 false ⟨1000, 0, 1, 4294966796⟩
      (List.replicate 4294966796 0) ⟨[], 0⟩).1 = true
    ∧ ((push_update 2 false ⟨1000, 0, 1, 4294966796⟩
        (List.replicate 4294966796 0) ⟨[], 0⟩).2.pending.getD 0
          default).region.left = 1372
    ∧ ((push_update 2 false ⟨1000, 0, 1, 4294966796⟩
        (List.replicate 4294966796 0) ⟨[], 0⟩).2.pending.getD 0
          default).region.width = 4294966796
    ∧ epd_width < 1372 + 4294966796 := by
  have hres := push_update_eq_accept 2 false ⟨1000, 0, 1, 4294966796⟩
    (List.replicate 4294966796 0) ⟨[], 0⟩
    (by rw [List.length_replicate]; decide)
    (by decide)
  refine ⟨?_, ?_, ?_, by decide⟩ <;> rw [hres] <;> rfl

/-- When no `uint32` wrap occurs in the client sums, a mathematically
out-of-panel transform always trips the source's bounds check. -/
theorem transformed_reject_of_out (T L W H : Nat)
    (hL : L < 4294967296) (hT : T < 4294967296)
    (hLW : L + W < 4294967296) (hTH : T + H < 4294967296)
    (hout : epd_height < L + W ∨ epd_width < T + H) :
    transformed_out_of_bounds ⟨T, L, W, H⟩ := by
  have he1 : epd_height = 1404 := rfl
  have he2 : epd_width = 1872 := rfl
  simp only [transformed_out_of_bounds, transformed_region, sub32, add32,
    m32, he1, he2] at *
  omega

/-- When no `uint32` wrap occurs in the client sums and the source's
bounds check passes, the transform is mathematically in-panel and the
`uint32` region arithmetic coincides with plain arithmetic. -/
theorem transformed_accept_characterization (T L W H : Nat)
    (hL : L < 4294967296) (hT : T < 4294967296)
    (hLW : L + W < 4294967296) (hTH : T + H < 4294967296)
    (hnot : ¬ transformed_out_of_bounds ⟨T, L, W, H⟩) :
    L + W ≤ epd_height ∧ T + H ≤ epd_width
    ∧ transformed_region ⟨T, L, W, H⟩ =
        ⟨epd_height - L - W, epd_width - T - H, H, W⟩ := by
  have he1 : epd_height = 1404 := rfl
  have he2 : epd_width = 1872 := rfl
  simp only [transformed_out_of_bounds, transformed_region, sub32, add32,
    m32, he1, he2, not_or, not_le, not_lt] at *
  refine ⟨?_, ?_, ?_⟩
  · omega
  · omega
  · have h1 : (1404 + 4294967296 - L % 4294967296) % 4294967296
        = 1404 + 4294967296 - L ∨ (1404 + 4294967296 - L % 4294967296)
        % 4294967296 = 1404 - L := by omega
    refine UpdateRegion.mk.injEq .. ▸ ⟨?_, ?_, rfl, rfl⟩ <;> omega

/-- C5 (amended): provided no `uint32` overflow occurs in the client sums
(`L + W < 2^32` and `T + H < 2^32`), every update accepted by
`push_update` with client region `{top=T, left=L, width=W, height=H}` and
row-major buffer of length `W*H` is enqueued with panel-space region
`{top = epd_height - L - W, left = epd_width - T - H, width = H,
height = W}` and the permuted buffer
`panel[k] = client[(H - k%H - 1)*W + (W - k/H - 1)] & 0x1F`; and whenever
the transformed region falls outside the panel bounds the update is
rejected and the queue and id counter are unchanged. -/
theorem c5_push_update_transform (mode : Nat) (imm : Bool) (T L W H : Nat)
    (buffer : List Nat) (st : DState)
    (hL : L < 4294967296) (hT : T < 4294967296)
    (hLW : L + W < 4294967296) (hTH : T + H < 4294967296)
    (hlen : buffer.length = W * H) :
    ((push_update mode imm ⟨T, L, W, H⟩ buffer st).1 = true →
      W * H < 4294967296
      ∧ L + W ≤ epd_height ∧ T + H ≤ epd_width
      ∧ (push_update mode imm ⟨T, L, W, H⟩ buffer st).2 =
        { pending := st.pending ++
            [{ id := [st.next_update_id], mode := mode, immediate := imm,
               region := ⟨epd_height - L - W, epd_width - T - H, H, W⟩,
               buffer := (List.range (W * H)).map (fun k =>
                 (buffer.getD ((H - k % H - 1) * W + (W - k / H - 1)) 0)
                   &&& (intensity_values - 1)) }],
          next_update_id := st.next_update_id + 1 })
    ∧ ((epd_height < L + W ∨ epd_width < T + H) →
        push_update mode imm ⟨T, L, W, H⟩ buffer st = (false, st)) := by
  constructor
  · intro hacc
    by_cases hm : buffer.length = mul32 W H
    · by_cases hb : transformed_out_of_bounds ⟨T, L, W, H⟩
      · rw [push_update_eq_reject_bounds mode imm _ buffer st hm hb] at hacc
        exact absurd hacc (by simp)
      · have hWH : W * H < 4294967296 := by
          rw [hlen] at hm
          simp only [mul32, m32] at hm
          omega
        obtain ⟨hb1, hb2, hreg⟩ :=
          transformed_accept_characterization T L W H hL hT hLW hTH hb
        refine ⟨hWH, hb1, hb2, ?_⟩
        rw [push_update_eq_accept mode imm _ buffer st hm hb, hreg]
        have hbuf : transformed_buffer ⟨T, L, W, H⟩ buffer =
            (List.range (W * H)).map (fun k =>
              (buffer.getD ((H - k % H - 1) * W + (W - k / H - 1)) 0)
                &&& (intensity_values - 1)) := by
          unfold transformed_buffer
          rw [hlen]
        rw [hbuf]
    · rw [push_update_eq_reject_len mode imm _ buffer st hm] at hacc
      exact absurd hacc (by simp)
  · intro hout
    by_cases hm : buffer.length = mul32 W H
    · exact push_update_eq_reject_bounds mode imm _ buffer st hm
        (transformed_reject_of_out T L W H hL hT hLW hTH hout)
    · exact push_update_eq_reject_len mode imm _ buffer st hm

/-- Witness for (amended) C5 at a concrete accepted update. -/
theorem c5_witness :
    ((0 : Nat) < 4294967296 ∧ (0 : Nat) + 8 < 4294967296
      ∧ (List.replicate 64 (0 : Nat)).length = 8 * 8)
    ∧ (((push_update 3 false ⟨0, 0, 8, 8⟩ (List.replicate 64 0)
          ⟨[], 4⟩).1 = true →
        8 * 8 < 4294967296
        ∧ 0 + 8 ≤ epd_height ∧ 0 + 8 ≤ epd_width
        ∧ (push_update 3 false ⟨0, 0, 8, 8⟩ (List.replicate 64 0)
            ⟨[], 4⟩).2 =
          { pending := ([] : List Update) ++
              [{ id := [4], mode := 3, immediate := false,
                 region := ⟨epd_height - 0 - 8, epd_width - 0 - 8, 8, 8⟩,
                 buffer := (List.range (8 * 8)).map (fun k =>
                   ((List.replicate 64 (0 : Nat)).getD
                     ((8 - k % 8 - 1) * 8 + (8 - k / 8 - 1)) 0)
                     &&& (intensity_values - 1)) }],
            next_update_id := 4 + 1 })
      ∧ ((epd_height < 0 + 8 ∨ epd_width < 0 + 8) →
          push_update 3 false ⟨0, 0, 8, 8⟩ (List.replicate 64 0) ⟨[], 4⟩ =
            (false, ⟨[], 4⟩))) :=
  ⟨⟨by decide, by decide, by decide⟩,
    c5_push_update_transform 3 false 0 0 8 8 (List.replicate 64 0) ⟨[], 4⟩
      (by decide) (by decide) (by decide) (by decide) (by decide)⟩

/-! ## Pointwise characterization of `copy_rect` -/

theorem copy_rect_loop_out (src : List Nat) (width sw dw : Nat) :
    ∀ (h : Nat) (dest : Nat → Nat) (spos dpos a : Nat),
    (∀ y, y < h → ¬ (dpos + y * dw ≤ a ∧ a < dpos + y * dw + width)) →
    copy_rect_loop src width sw dw dest spos dpos h a = dest a := by
  intro h
  induction h with
  | zero => intro dest spos dpos a _; rfl
  | succ k ih =>
      intro dest spos dpos a hno
      show copy_rect_loop src width sw dw
        (copy_row src spos width dest dpos) (spos + sw) (dpos + dw) k a
        = dest a
      rw [ih _ _ _ a ?_]
      · have h0 := hno 0 (Nat.succ_pos k)
        simp only [Nat.zero_mul, Nat.add_zero] at h0
        simp only [copy_row]
        rw [if_neg h0]
      · intro y hy
        have hy1 := hno (y + 1) (by omega)
        rw [Nat.succ_mul] at hy1
        intro hcon
        exact hy1 ⟨by omega, by omega⟩

theorem copy_rect_loop_hit (src : List Nat) (width sw dw : Nat)
    (hwd : width ≤ dw) :
    ∀ (h : Nat) (dest : Nat → Nat) (spos dpos a y : Nat),
    y < h → dpos + y * dw ≤ a → a < dpos + y * dw + width →
    copy_rect_loop src width sw dw dest spos dpos h a =
      src.getD (spos + y * sw + (a - (dpos + y * dw))) 0 := by
  intro h
  induction h with
  | zero => intro _ _ _ _ _ hy; omega
  | succ k ih =>
      intro dest spos dpos a y hy hlo hhi
      show copy_rect_loop src width sw dw
        (copy_row src spos width dest dpos) (spos + sw) (dpos + dw) k a = _
      cases y with
      | zero =>
          simp only [Nat.zero_mul, Nat.add_zero] at hlo hhi ⊢
          rw [copy_rect_loop_out src width sw dw k _ _ _ a ?_]
          · simp only [copy_row]
            rw [if_pos ⟨hlo, hhi⟩]
          · intro y' _
            intro hcon
            omega
      | succ y' =>
          rw [Nat.succ_mul] at hlo hhi ⊢
          rw [ih _ (spos + sw) (dpos + dw) a y' (by omega)
            (by omega) (by omega)]
          congr 1
          rw [Nat.succ_mul]
          omega

/-- Pointwise form of `copy_rect` from a row-major `width × height` source
rectangle (read with source stride `sw` from position 0): when the
destination rectangle does not wrap rows (`dleft + width ≤ dw`), the byte
at address `a` is the source entry at the rectangle-relative coordinates
of `a`, and other addresses are untouched. -/
theorem copy_rect_pointwise (src : List Nat) (width height sw dw : Nat)
    (dest : Nat → Nat) (dtop dleft : Nat) (a : Nat)
    (hwd : dleft + width ≤ dw) (hdw : 0 < dw) :
    copy_rect src 0 0 width height sw dest dtop dleft dw a =
      if dtop ≤ a / dw ∧ a / dw < dtop + height
          ∧ dleft ≤ a % dw ∧ a % dw < dleft + width
      then src.getD ((a / dw - dtop) * sw + (a % dw - dleft)) 0
      else dest a := by
  have hmod : a = dw * (a / dw) + a % dw := (Nat.div_add_mod a dw).symm
  have hmlt : a % dw < dw := Nat.mod_lt a hdw
  unfold copy_rect
  simp only [Nat.zero_add, Nat.mul_zero, Nat.add_zero]
  split
  · rename_i hcond
    obtain ⟨h1, h2, h3, h4⟩ := hcond
    have hrs : dleft + dw * dtop + (a / dw - dtop) * dw = dleft + dw * (a / dw) := by
      have hsub : (a / dw - dtop) * dw = (a / dw) * dw - dtop * dw :=
        Nat.sub_mul _ _ _
      have hle : dtop * dw ≤ (a / dw) * dw := Nat.mul_le_mul_right _ h1
      rw [hsub, Nat.mul_comm dw dtop, Nat.mul_comm dw (a / dw)]
      omega
    rw [copy_rect_loop_hit src width sw dw (by omega) height dest 0
      (dleft + dw * dtop) a (a / dw - dtop) (by omega) (by omega) (by omega)]
    congr 1
    omega
  · rename_i hcond
    rw [copy_rect_loop_out]
    intro y hy hcon
    have hrow : dleft + dw * dtop + y * dw = dleft + dw * (dtop + y) := by
      ring
    rw [hrow] at hcon
    have hlow : (dtop + y) * dw ≤ a := by
      rw [Nat.mul_comm]
      omega
    have hhigh : a < (dtop + y + 1) * dw := by
      rw [Nat.succ_mul, Nat.mul_comm]
      omega
    have hdivk : a / dw = dtop + y := Nat.div_eq_of_lt_le hlow hhigh
    have he : dw * (a / dw) = dw * (dtop + y) := by rw [hdivk]
    exact hcond ⟨by omega, by omega, by omega, by omega⟩

/-! ### C2: batch updates and the pixel-wise last write

In `Display::generate_batch` the only effect on the intensity state is:

    next_intensity = this->current_intensity;
    update.apply(next_intensity.data(), epd_width);
    ... (frame generation and send_frames) ...
    this->current_intensity = next_intensity;

so processing one batch update maps `current_intensity` through
`update_apply`. -/

/-- Effect of one `generate_batch` call on `current_intensity`. -/
def generate_batch_intensity (u : Update) (cur : Nat → Nat) : Nat → Nat :=
  update_apply u cur epd_width

/-- A panel pixel index `a` lies in the update's rectangle. -/
def covers (u : Update) (a : Nat) : Prop :=
  u.region.top ≤ a / epd_width ∧ a / epd_width < u.region.top + u.region.height
  ∧ u.region.left ≤ a % epd_width
  ∧ a % epd_width < u.region.left + u.region.width

instance (u : Update) (a : Nat) : Decidable (covers u a) := by
  unfold covers
  infer_instance

/-- The buffer value an update writes at panel pixel `a`. -/
def written_value (u : Update) (a : Nat) : Nat :=
  u.buffer.getD ((a / epd_width - u.region.top) * u.region.width
    + (a % epd_width - u.region.left)) 0

/-- The region lies inside the panel. -/
def region_in_panel (r : UpdateRegion) : Prop :=
  r.left + r.width ≤ epd_width ∧ r.top + r.height ≤ epd_height

instance (r : UpdateRegion) : Decidable (region_in_panel r) := by
  unfold region_in_panel
  infer_instance

/-- Two rectangles overlap. -/
def regions_overlap (r1 r2 : UpdateRegion) : Prop :=
  max r1.left r2.left < min (r1.left + r1.width) (r2.left + r2.width)
  ∧ max r1.top r2.top < min (r1.top + r1.height) (r2.top + r2.height)

instance (r1 r2 : UpdateRegion) : Decidable (regions_overlap r1 r2) := by
  unfold regions_overlap
  infer_instance

theorem generate_batch_intensity_pointwise (u : Update) (cur : Nat → Nat)
    (a : Nat) (h : u.region.left + u.region.width ≤ epd_width) :
    generate_batch_intensity u cur a =
      if covers u a then written_value u a else cur a := by
  unfold generate_batch_intensity update_apply covers written_value
  exact copy_rect_pointwise u.buffer u.region.width u.region.height
    u.region.width epd_width cur u.region.top u.region.left a h (by decide)

theorem listGetD_append_left {α : Type} (l l' : List α) (i : Nat) (d : α)
    (h : i < l.length) : (l ++ l').getD i d = l.getD i d := by
  induction l generalizing i with
  | nil => simp at h
  | cons x xs ih =>
      cases i with
      | zero => rfl
      | succ j => exact ih j (by simpa using h)

theorem listGetD_append_len {α : Type} (l : List α) (u : α) (d : α) :
    (l ++ [u]).getD l.length d = u := by
  induction l with
  | nil => rfl
  | cons x xs ih => exact ih

/-- C2: for every sequence of batch updates whose panel-space regions are
in bounds and pairwise non-overlapping, after the generator has processed
them (each batch update sets `next_intensity` to a copy of
`current_intensity`, applies its buffer rectangle, and assigns
`current_intensity := next_intensity` after all frames are sent) the
`current_intensity` array equals the pixel-wise last write: every pixel
covered by some update holds the value written by the last update covering
it, and every pixel covered by no update keeps its previous value. -/
theorem c2_batch_intensity_last_write (us : List Update) (cur0 : Nat → Nat)
    (hwf : ∀ u ∈ us, region_in_panel u.region)
    (hdisj : List.Pairwise (fun u v => ¬ regions_overlap u.region v.region) us) :
    ∀ a : Nat,
      ((∀ u ∈ us, ¬ covers u a) →
        us.foldl (fun cur u => generate_batch_intensity u cur) cur0 a = cur0 a)
      ∧ (∀ i : Nat, i < us.length → covers (us.getD i default) a →
          (∀ j : Nat, i < j → j < us.length → ¬ covers (us.getD j default) a) →
          us.foldl (fun cur u => generate_batch_intensity u cur) cur0 a =
            written_value (us.getD i default) a) := by
  induction us using List.reverseRecOn with
  | nil =>
      intro a
      refine ⟨fun _ => rfl, fun i hi => ?_⟩
      simp at hi
  | append_singleton l u ih =>
      have hwf' : ∀ v ∈ l, region_in_panel v.region := by
        intro v hv
        exact hwf v (by simp [hv])
      have hdisj' : List.Pairwise
          (fun u v => ¬ regions_overlap u.region v.region) l :=
        (List.pairwise_append.1 hdisj).1
      have hu : region_in_panel u.region := hwf u (by simp)
      intro a
      have hfold : (l ++ [u]).foldl
          (fun cur v => generate_batch_intensity v cur) cur0 =
          generate_batch_intensity u
            (l.foldl (fun cur v => generate_batch_intensity v cur) cur0) := by
        rw [List.foldl_append]
        rfl
      constructor
      · intro hno
        rw [hfold, generate_batch_intensity_pointwise u _ a hu.1,
          if_neg (hno u (by simp))]
        exact (ih hwf' hdisj' a).1 (fun v hv => hno v (by simp [hv]))
      · intro i hi hcov hlater
        rcases Nat.lt_or_ge i l.length with hil | hil
        · rw [listGetD_append_left l [u] i default hil] at hcov ⊢
          have hnotu : ¬ covers u a := by
            have := hlater l.length (by omega) (by simp)
            rwa [listGetD_append_len] at this
          rw [hfold, generate_batch_intensity_pointwise u _ a hu.1,
            if_neg hnotu]
          refine (ih hwf' hdisj' a).2 i hil hcov ?_
          intro j hij hjl
          have := hlater j hij (by simp; omega)
          rwa [listGetD_append_left l [u] j default hjl] at this
        · have hieq : i = l.length := by
            simp only [List.length_append, List.length_cons,
              List.length_nil] at hi
            omega
          subst hieq
          rw [listGetD_append_len] at hcov ⊢
          rw [hfold, generate_batch_intensity_pointwise u _ a hu.1,
            if_pos hcov]

/-- First concrete update for the C2 witness. -/
def c2w_u1 : Update :=
  { id := [0], mode := 0, immediate := false, region := ⟨0, 0, 8, 1⟩,
    buffer := List.replicate 8 30 }

/-- Second concrete update for the C2 witness (disjoint region). -/
def c2w_u2 : Update :=
  { id := [1], mode := 0, immediate := false, region := ⟨5, 0, 8, 1⟩,
    buffer := List.replicate 8 2 }

/-- Witness for C2 with two concrete disjoint updates. -/
theorem c2_witness :
    ((∀ u ∈ [c2w_u1, c2w_u2], region_in_panel u.region)
      ∧ List.Pairwise (fun u v => ¬ regions_overlap u.region v.region)
          [c2w_u1, c2w_u2])
    ∧ (∀ a : Nat,
      ((∀ u ∈ [c2w_u1, c2w_u2], ¬ covers u a) →
        [c2w_u1, c2w_u2].foldl
          (fun cur u => generate_batch_intensity u cur) (fun _ => 0) a
          = (fun _ => (0 : Nat)) a)
      ∧ (∀ i : Nat, i < [c2w_u1, c2w_u2].length →
          covers ([c2w_u1, c2w_u2].getD i default) a →
          (∀ j : Nat, i < j → j < [c2w_u1, c2w_u2].length →
            ¬ covers ([c2w_u1, c2w_u2].getD j default) a) →
          [c2w_u1, c2w_u2].foldl
            (fun cur u => generate_batch_intensity u cur) (fun _ => 0) a =
            written_value ([c2w_u1, c2w_u2].getD i default) a)) :=
  ⟨⟨by decide, by decide⟩,
    c2_batch_intensity_last_write [c2w_u1, c2w_u2] (fun _ => 0)
      (by decide) (by decide)⟩

/-! ### C8: push_update error handling (ModeKind overload)

The `ModeKind` overload of `Display::push_update` first resolves the mode
kind through `WaveformTable::get_mode_id`, which throws
`std::out_of_range` when the kind has no entry in `mode_id_by_kind`; the
delegated `ModeID` overload returns `false` on an invalid buffer size or
an out-of-panel transformed region.  The embedding returns `none` for the
thrown exception and `some b` for a normal return `b`. -/

/-- Embedding of `WaveformTable::get_mode_id` (the `unordered_map::find`
on the reverse classification map; `none` embeds the throw). -/
def get_mode_id (tbl : WaveformTable) (kind : ModeKind) : Option Nat :=
  (tbl.mode_id_by_kind.find? (fun p => decide (p.1 = kind))).map (fun p => p.2)

/-- Embedding of the `ModeKind` overload of `Display::push_update`. -/
def push_update_kind (tbl : WaveformTable) (kind : ModeKind) (imm : Bool)
    (region : UpdateRegion) (buffer : List Nat) (st : DState) :
    Option Bool × DState :=
  match get_mode_id tbl kind with
  | none => (none, st)
  | some m =>
      let r := push_update m imm region buffer st
      (some r.1, r.2)

/-- Concrete table for the C8 counterexample: `DU` maps to mode id 2. -/
def c8_table : WaveformTable :=
  { frame_rate := 85, mode_count := 3, temperatures := [0, 50],
    waveforms := [[], [], []], waveform_lookup := [[0], [0], [0]],
    mode_kind_by_id := [ModeKind.INIT, ModeKind.A2, ModeKind.DU],
    mode_id_by_kind := [(ModeKind.INIT, 0), (ModeKind.A2, 1), (ModeKind.DU, 2)] }

/-- C8 (counterexample): a supported mode kind together with a client
region whose `uint32` bounds check wraps (`height = 2^32 - 600`) makes
`push_update` return `some true` and enqueue the update, even though the
transformed region lies outside the panel — so "region outside panel ⟹
empty result and no side effects" fails as stated. -/
theorem c8_counterexample :
    get_mode_id c8_table ModeKind.DU = some 2
    ∧ (push_update_kind c8_table ModeKind.DU false ⟨1100, 0, 1, 4294966696⟩
        (List.replicate 4294966696 0) ⟨[], 5⟩).1 = some true
    ∧ ((push_update_kind c8_table ModeKind.DU false ⟨1100, 0, 1, 4294966696⟩
        (List.replicate 4294966696 0) ⟨[], 5⟩).2.pending.getD 0
          default).region.left = 1372
    ∧ ((push_update_kind c8_table ModeKind.DU false ⟨1100, 0, 1, 4294966696⟩
        (List.replicate 4294966696 0) ⟨[], 5⟩).2.pending.getD 0
          default).region.width = 4294966696
    ∧ epd_width < 1372 + 4294966696 := by
  have hres := push_update_eq_accept 2 false ⟨1100, 0, 1, 4294966696⟩
    (List.replicate 4294966696 0) ⟨[], 5⟩
    (by rw [List.length_replicate]; decide)
    (by decide)
  have hmode : get_mode_id c8_table ModeKind.DU = some 2 := by decide
  have hkind : push_update_kind c8_table ModeKind.DU false
      ⟨1100, 0, 1, 4294966696⟩ (List.replicate 4294966696 0) ⟨[], 5⟩ =
      (some (push_update 2 false ⟨1100, 0, 1, 4294966696⟩
        (List.replicate 4294966696 0) ⟨[], 5⟩).1,
       (push_update 2 false ⟨1100, 0, 1, 4294966696⟩
        (List.replicate 4294966696 0) ⟨[], 5⟩).2) := by
    unfold push_update_kind
    rw [hmode]
  refine ⟨hmode, ?_, ?_, ?_, by decide⟩ <;> rw [hkind, hres] <;> rfl

/-- C8 (amended): provided no `uint32` overflow occurs
(`W*H, L+W, T+H < 2^32`), if the buffer length differs from
`width * height`, or the transformed region lies outside the panel, or the
requested mode kind is not supported by the loaded waveform table, then
`push_update` produces no success result (`none` for the thrown
out-of-range, `some false` otherwise) and has no side effects: the queue
and the update id counter are unchanged. -/
theorem c8_invalid_update_no_side_effects (tbl : WaveformTable)
    (kind : ModeKind) (imm : Bool) (T L W H : Nat) (buffer : List Nat)
    (st : DState)
    (hL : L < 4294967296) (hT : T < 4294967296)
    (hLW : L + W < 4294967296) (hTH : T + H < 4294967296)
    (hWH : W * H < 4294967296)
    (hcase : buffer.length ≠ W * H ∨ epd_height < L + W ∨ epd_width < T + H
      ∨ get_mode_id tbl kind = none) :
    (push_update_kind tbl kind imm ⟨T, L, W, H⟩ buffer st).1 ≠ some true
    ∧ (push_update_kind tbl kind imm ⟨T, L, W, H⟩ buffer st).2 = st := by
  unfold push_update_kind
  cases hmode : get_mode_id tbl kind with
  | none => exact ⟨by simp, rfl⟩
  | some m =>
      simp only
      rcases hcase with hlen | hb | hb | hnone
      · have hrej : push_update m imm ⟨T, L, W, H⟩ buffer st = (false, st) := by
          apply push_update_eq_reject_len
          intro hcon
          rw [hcon] at hlen
          simp only [mul32, m32] at hlen
          exact hlen (by omega)
        rw [hrej]
        exact ⟨by simp, rfl⟩
      · by_cases hm : buffer.length = mul32 W H
        · rw [push_update_eq_reject_bounds m imm _ buffer st hm
            (transformed_reject_of_out T L W H hL hT hLW hTH (Or.inl hb))]
          exact ⟨by simp, rfl⟩
        · rw [push_update_eq_reject_len m imm _ buffer st hm]
          exact ⟨by simp, rfl⟩
      · by_cases hm : buffer.length = mul32 W H
        · rw [push_update_eq_reject_bounds m imm _ buffer st hm
            (transformed_reject_of_out T L W H hL hT hLW hTH (Or.inr hb))]
          exact ⟨by simp, rfl⟩
        · rw [push_update_eq_reject_len m imm _ buffer st hm]
          exact ⟨by simp, rfl⟩
      · rw [hmode] at hnone
        exact absurd hnone (by simp)

/-- Witness for (amended) C8: an unsupported mode kind on a small table. -/
theorem c8_witness :
    ((0 : Nat) < 4294967296 ∧ (0 : Nat) + 8 < 4294967296
      ∧ (8 : Nat) * 8 < 4294967296
      ∧ ((List.replicate 64 (0 : Nat)).length ≠ 8 * 8
          ∨ epd_height < 0 + 8 ∨ epd_width < 0 + 8
          ∨ get_mode_id c8_table ModeKind.GC16 = none))
    ∧ (push_update_kind c8_table ModeKind.GC16 false ⟨0, 0, 8, 8⟩
        (List.replicate 64 0) ⟨[], 7⟩).1 ≠ some true
    ∧ (push_update_kind c8_table ModeKind.GC16 false ⟨0, 0, 8, 8⟩
        (List.replicate 64 0) ⟨[], 7⟩).2 = ⟨[], 7⟩ :=
  ⟨⟨by decide, by decide, by decide, by decide⟩,
    c8_invalid_update_no_side_effects c8_table ModeKind.GC16 false 0 0 8 8
      (List.replicate 64 0) ⟨[], 7⟩ (by decide) (by decide) (by decide)
      (by decide) (by decide) (by decide)⟩

/-! ## WBF container parsing (waveform_table.cpp)

The WBF file is a little-endian byte container.  Byte buffers are
`List Nat`; every read is normalized modulo 256 (`char` → `uint8`). -/

/-- Read one byte of a buffer (reads past the end yield 0; the C++ code
never makes such reads on the paths modelled here). -/
def bAt (buf : List Nat) (i : Nat) : Nat := buf.getD i 0 % 256

/-- Read a little-endian `uint16`. -/
def u16le (buf : List Nat) (i : Nat) : Nat := bAt buf i + 256 * bAt buf (i + 1)

/-- Read a little-endian 24-bit value. -/
def u24le (buf : List Nat) (i : Nat) : Nat :=
  bAt buf i + 256 * bAt buf (i + 1) + 65536 * bAt buf (i + 2)

/-- Read a little-endian `uint32`. -/
def u32le (buf : List Nat) (i : Nat) : Nat :=
  bAt buf i + 256 * bAt buf (i + 1) + 65536 * bAt buf (i + 2)
    + 16777216 * bAt buf (i + 3)

/-- Little-endian `uint32` serialization (for assembling test files). -/
def u32le_bytes (n : Nat) : List Nat :=
  [n % 256, n / 256 % 256, n / 65536 % 256, n / 16777216 % 256]

/-- Modelled from the spec: `basic_checksum` (checksum.tpp, not present
under src/) is the "8-bit additive checksum" used on the header, the
temperature table and the pointers — the sum modulo 256 of the bytes in
`[lo, hi)`. -/
def basic_checksum (buf : List Nat) (lo hi : Nat) : Nat :=
  ((List.range (hi - lo)).map (fun k => bAt buf (lo + k))).sum % 256

/-- Iterate the reflected CRC-32 bit step (polynomial `0xEDB88320`)
`n` times. -/
def crc32_bits : Nat → Nat → Nat
  | 0, c => c
  | n + 1, c =>
      if c % 2 = 1 then crc32_bits n ((c / 2) ^^^ 0xEDB88320)
      else crc32_bits n (c / 2)

/-- Modelled from the spec: `crc32_checksum` (checksum.tpp, not present
under src/) is the standard CRC-32 ("CRC-32 over the file with the first
four bytes zeroed"), in its chainable zlib form: the running value is
inverted, updated bytewise by eight reflected-polynomial bit steps, and
inverted again. -/
def crc32_update (crc : Nat) (bytes : List Nat) : Nat :=
  (bytes.foldl (fun c b => crc32_bits 8 (c ^^^ (b % 256)))
    (crc ^^^ 0xFFFFFFFF)) ^^^ 0xFFFFFFFF

/-- Errors thrown while parsing a WBF file (all surface to the caller as
exceptions; no partially loaded table is ever produced). -/
inductive WbfError where
  | tooShort
  | badChecksum1
  | badChecksum2
  | badRunType
  | badFplPlatform
  | badAdhesiveRun
  | badWaveformType
  | badWaveformRevision
  | badVcomOffset
  | badFvsn
  | badLuts
  | badAdvancedWfmFlags
  | badFilesize
  | badCrc
  | badTempChecksum
  | badPointerChecksum
  | lookupFailed
deriving DecidableEq, Repr

/-- The header fields consumed by the parser (struct `wbf_header`, packed,
48 bytes). -/
structure WbfHeader where
  checksum : Nat
  filesize : Nat
  run_type : Nat
  fpl_platform : Nat
  fpl_lot : Nat
  adhesive_run : Nat
  waveform_type : Nat
  waveform_revision : Nat
  frame_rate : Nat
  vcom_offset : Nat
  checksum1 : Nat
  fvsn : Nat
  luts : Nat
  mode_count : Nat
  temp_range_count : Nat
  advanced_wfm_flags : Nat
  checksum2 : Nat
deriving DecidableEq, Repr

/-- Field extraction at the packed `wbf_header` offsets. -/
def read_header (buf : List Nat) : WbfHeader :=
  { checksum := u32le buf 0
    filesize := u32le buf 4
    run_type := bAt buf 12
    fpl_platform := bAt buf 13
    fpl_lot := u16le buf 14
    adhesive_run := bAt buf 16
    waveform_type := bAt buf 19
    waveform_revision := bAt buf 22
    frame_rate := bAt buf 24
    vcom_offset := bAt buf 25
    checksum1 := bAt buf 31
    fvsn := bAt buf 35
    luts := bAt buf 36
    mode_count := bAt buf 37
    temp_range_count := bAt buf 38
    advanced_wfm_flags := bAt buf 39
    checksum2 := bAt buf 47 }

/-- Field checks of `parse_header`, in source order: the two additive
header checksums (`checksum1` over bytes `[8, 31)`, `checksum2` over
bytes `[32, 47)`), then the fixed expected constants. -/
def parse_header_checks (buf : List Nat) (header : WbfHeader) :
    Except WbfError WbfHeader :=
  if header.checksum1 ≠ basic_checksum buf 8 31 then .error .badChecksum1
  else if header.checksum2 ≠ basic_checksum buf 32 47 then .error .badChecksum2
  else if header.run_type ≠ 17 then .error .badRunType
  else if header.fpl_platform ≠ 0 then .error .badFplPlatform
  else if header.adhesive_run ≠ 25 then .error .badAdhesiveRun
  else if header.waveform_type ≠ 81 then .error .badWaveformType
  else if header.waveform_revision ≠ 0 then .error .badWaveformRevision
  else if header.vcom_offset ≠ 0 then .error .badVcomOffset
  else if header.fvsn ≠ 1 then .error .badFvsn
  else if header.luts ≠ 4 then .error .badLuts
  else if header.advanced_wfm_flags ≠ 3 then .error .badAdvancedWfmFlags
  else .ok header

/-- Embedding of `parse_header`: minimum length, then the field checks
on the header read from the buffer. -/
def parse_header (buf : List Nat) : Except WbfError WbfHeader :=
  if buf.length < 48 then .error .tooShort
  else parse_header_checks buf (read_header buf)

/-- Conversion `char` → `Temperature` (`int8`). -/
def toInt8 (b : Nat) : Int :=
  if b % 256 < 128 then (b % 256 : Int) else (b % 256 : Int) - 256

/-- Embedding of `parse_temperatures`: read `temp_range_count + 2` bytes
as `int8` thresholds, verify their additive checksum, and return the new
buffer position. -/
def parse_temperatures (header : WbfHeader) (buf : List Nat) (pos : Nat) :
    Except WbfError (List Int × Nat) :=
  let count := header.temp_range_count + 2
  if bAt buf (pos + count) ≠ basic_checksum buf pos (pos + count) then
    .error .badTempChecksum
  else
    .ok ((List.range count).map (fun k => toInt8 (bAt buf (pos + k))),
      pos + count + 1)

/-- Embedding of `parse_pointer`: a 24-bit little-endian pointer followed
by a one-byte additive checksum of its three bytes. -/
def parse_pointer (buf : List Nat) (pos : Nat) : Except WbfError Nat :=
  let b1 := bAt buf pos
  let b2 := bAt buf (pos + 1)
  let b3 := bAt buf (pos + 2)
  if bAt buf (pos + 3) ≠ (b1 + b2 + b3) % 256 then .error .badPointerChecksum
  else .ok (b1 + 256 * b2 + 65536 * b3)

/-- Read `n` consecutive pointers (the per-mode temperature table). -/
def parse_pointer_list (buf : List Nat) (pos : Nat) :
    Nat → Except WbfError (List Nat)
  | 0 => .ok []
  | n + 1 => do
      let p ← parse_pointer buf pos
      let rest ← parse_pointer_list buf (pos + 4) n
      .ok (p :: rest)

/-- The two-level pointer traversal shared by `find_waveform_blocks` and
`parse_waveforms`: for each mode, read its table pointer from the mode
table and then the `temp_count` waveform pointers it points to.  Both
source functions perform exactly this traversal (with their own iterator
copies); factoring it makes the equality of the two passes definitional. -/
def parse_grid (buf : List Nat) (table_pos temp_count : Nat) :
    Nat → Except WbfError (List (List Nat))
  | 0 => .ok []
  | n + 1 => do
      let mp ← parse_pointer buf table_pos
      let row ← parse_pointer_list buf mp temp_count
      let rest ← parse_grid buf (table_pos + 4) temp_count n
      .ok (row :: rest)

/-- `std::set<uint32_t>::insert` on the sorted unique list that embeds
the set. -/
def setInsert (x : Nat) : List Nat → List Nat
  | [] => [x]
  | y :: ys =>
      if x < y then x :: y :: ys
      else if x = y then y :: ys
      else y :: setInsert x ys

/-- The sorted unique list of elements of `l` (the contents of a
`std::set` filled from `l`, read in iteration order). -/
def setOfList (l : List Nat) : List Nat :=
  l.foldl (fun s x => setInsert x s) []

/-- Embedding of `find_waveform_blocks`: the ordered set of waveform
block addresses referenced by the pointer table. -/
def find_waveform_blocks (buf : List Nat) (table_pos mode_count temp_count : Nat) :
    Except WbfError (List Nat) :=
  (parse_grid buf table_pos temp_count mode_count).map
    (fun g => setOfList g.flatten)

/-- Result of `std::lower_bound` over the sorted block list: the index of
the first element not less than `v` (the standard-specified postcondition
of the library call). -/
def lowerBoundIdx (l : List Nat) (v : Nat) : Nat :=
  (l.takeWhile (fun x => decide (x < v))).length

/-- The byte range `[a, b)` of the file. -/
def slice_bytes (buf : List Nat) (a b : Nat) : List Nat :=
  (buf.drop a).take (b - a)

/-- Decode the waveform blocks delimited by consecutive entries of the
block address list. -/
def slice_waveforms (buf : List Nat) : List Nat → List Waveform
  | [] => []
  | [_] => []
  | a :: b :: rest =>
      parse_waveform (slice_bytes buf a b) :: slice_waveforms buf (b :: rest)

/-- Embedding of `parse_waveforms`: decode every block and remap each
`(mode, temperature)` pointer to its block index via `lower_bound` over
the block list. -/
def parse_waveforms (buf : List Nat) (table_pos mode_count temp_count : Nat)
    (blocks : List Nat) :
    Except WbfError (List Waveform × List (List Nat)) := do
  let grid ← parse_grid buf table_pos temp_count mode_count
  .ok (slice_waveforms buf blocks,
    grid.map (fun row => row.map (fun v => lowerBoundIdx blocks v)))

/-- Embedding of `classify_mode_kind`.  The C++ computes
`defined_targets` as a `double` quotient `total / defined_sources` and
compares it against the integer thresholds 2, 4, 16 and 1; for the ranges
involved (numerator and denominator at most 1024) these floating
comparisons are exact and equal the integer cross-multiplied comparisons
used here.  When `defined_sources = 0` the quotient is NaN (0/0) and
every comparison is false, which the explicit guard reproduces; this case
is unreachable because an all-noop waveform is classified `INIT`. -/
def classify_mode_kind (waveform : Waveform) : ModeKind :=
  let is_init := waveform.all (fun matrix =>
    (List.range intensity_values).all (fun fi =>
      (List.range intensity_values).all (fun ti =>
        matrix 0 0 == matrix fi ti)))
  if is_init then ModeKind.INIT
  else
    let no_ops : Nat → Nat → Bool := fun fi ti =>
      waveform.all (fun matrix => matrix fi ti == phaseNoop)
    let regalable :=
      !(no_ops 28 29) && !(no_ops 28 31) && !(no_ops 29 29)
        && !(no_ops 29 31) && !(no_ops 30 29) && !(no_ops 30 31)
    let defined_sources := ((List.range intensity_values).filter (fun fi =>
      (List.range intensity_values).any (fun ti => !(no_ops fi ti)))).length
    let targets_total := (((List.range intensity_values).map (fun fi =>
      ((List.range intensity_values).filter
        (fun ti => !(no_ops fi ti))).length)).sum)
    if defined_sources = 0 then ModeKind.UNKNOWN
    else if 16 ≤ defined_sources then
      if targets_total < 2 * defined_sources then ModeKind.DU
      else if targets_total < 4 * defined_sources then ModeKind.DU4
      else if 16 * defined_sources ≤ targets_total then
        (if regalable then ModeKind.GLR16 else ModeKind.GC16)
      else ModeKind.UNKNOWN
    else if defined_sources ≤ 8 ∧ targets_total ≤ defined_sources then
      ModeKind.A2
    else ModeKind.UNKNOWN

/-- Loop of `populate_mode_kind_mappings`: classify each mode at the
21 °C sample temperature; record the kind per mode; insert the reverse
mapping only for known kinds, and only if the kind has no entry yet
(`unordered_map::insert` does not overwrite). -/
def populate_loop (tbl : WaveformTable) :
    Nat → List ModeKind → List (ModeKind × Nat) → Nat →
    Except LookupError (List ModeKind × List (ModeKind × Nat))
  | _, kinds, assoc, 0 => .ok (kinds, assoc)
  | mode, kinds, assoc, n + 1 => do
      let wf ← lookup tbl mode 21
      let kind := classify_mode_kind wf
      let assoc2 :=
        if kind = ModeKind.UNKNOWN then assoc
        else if (assoc.find? (fun p => decide (p.1 = kind))).isSome then assoc
        else assoc ++ [(kind, mode)]
      populate_loop tbl (mode + 1) (kinds ++ [kind]) assoc2 n

/-- Embedding of `WaveformTable::populate_mode_kind_mappings`. -/
def populate_mode_kind_mappings (tbl : WaveformTable) :
    Except LookupError WaveformTable :=
  match populate_loop tbl 0 [] [] tbl.mode_count with
  | .error e => .error e
  | .ok (kinds, assoc) =>
      .ok { tbl with mode_kind_by_id := kinds, mode_id_by_kind := assoc }

/-- Embedding of `WaveformTable::from_wbf`: header parsing and checks,
filesize check, CRC-32 check, temperature table, extra-info skip, block
discovery, waveform decoding and lookup construction, then mode-kind
classification.  `result.mode_count` is a `ModeID` (`uint8`), hence the
`% 256`; the block traversals use `std::size_t` counts. -/
def from_wbf (buf : List Nat) : Except WbfError WaveformTable :=
  match parse_header buf with
  | .error e => .error e
  | .ok header =>
    let frame_rate := if header.frame_rate = 0 then 85 else header.frame_rate
    let mode_count := (header.mode_count + 1) % 256
    if header.filesize ≠ buf.length then .error .badFilesize
    else if header.checksum ≠
        crc32_update (crc32_update 0 [0, 0, 0, 0]) (buf.drop 4) then
      .error .badCrc
    else
      match parse_temperatures header buf 48 with
      | .error e => .error e
      | .ok (temps, it1) =>
        let len := bAt buf it1
        let it2 := it1 + len + 2
        match find_waveform_blocks buf it2 (header.mode_count + 1)
            (header.temp_range_count + 1) with
        | .error e => .error e
        | .ok blocks0 =>
          let blocks := blocks0 ++ [buf.length]
          match parse_waveforms buf it2 (header.mode_count + 1)
              (header.temp_range_count + 1) blocks with
          | .error e => .error e
          | .ok (wfs, lkp) =>
            match populate_mode_kind_mappings
                { frame_rate := frame_rate, mode_count := mode_count,
                  temperatures := temps, waveforms := wfs,
                  waveform_lookup := lkp, mode_kind_by_id := [],
                  mode_id_by_kind := [] } with
            | .error _ => .error .lookupFailed
            | .ok tbl => .ok tbl

/-! ### Concrete WBF files for C7 and C9 -/

/-- Byte 4 onward of a minimal well-formed WBF file: one mode, one
temperature range (thresholds 20 and 30), an empty waveform block.  All
checksums are the correct additive sums; the CRC-32 is prepended by
`file7`. -/
def file7_body : List Nat :=
  [63, 0, 0, 0,
   0, 0, 0, 0,
   17, 0, 0, 0,
   25, 0, 0, 81,
   0, 0, 0, 133,
   85, 0, 0, 0,
   0, 0, 0, 85,
   0, 0, 0, 1, 4,
   0, 0, 3,
   0, 0, 0, 0, 0, 0, 0, 8,
   20, 30, 50,
   0, 0,
   57, 0, 0, 57,
   61, 0, 0, 61,
   0, 0]

/-- The complete file: CRC-32 over the file with its first four bytes
zeroed, then the body. -/
def file7 : List Nat :=
  u32le_bytes (crc32_update (crc32_update 0 [0, 0, 0, 0]) file7_body)
    ++ file7_body

/-- Byte 4 onward of a well-formed WBF file whose temperature thresholds
are `[21, 21, 30]` — sorted but *not strictly* ascending. -/
def file9_body : List Nat :=
  [68, 0, 0, 0,
   0, 0, 0, 0,
   17, 0, 0, 0,
   25, 0, 0, 81,
   0, 0, 0, 133,
   85, 0, 0, 0,
   0, 0, 0, 85,
   0, 0, 0, 1, 4,
   0, 1, 3,
   0, 0, 0, 0, 0, 0, 0, 9,
   21, 21, 30, 72,
   0, 0,
   58, 0, 0, 58,
   66, 0, 0, 66,
   66, 0, 0, 66,
   0, 0]

/-- The complete duplicate-threshold file. -/
def file9 : List Nat :=
  u32le_bytes (crc32_update (crc32_update 0 [0, 0, 0, 0]) file9_body)
    ++ file9_body

/-- The temperature table of a parse result. -/
def wbf_temperatures (r : Except WbfError WaveformTable) : List Int :=
  match r with
  | .ok t => t.temperatures
  | .error _ => []

/-! ### C7 -/

set_option maxRecDepth 8000 in
/-- C7 (counterexample): reading the claim's byte ranges with the
inclusive convention established by "bytes 8..30" (which matches the
code's `[8, 31)` sum), "checksum2 equals the additive 8-bit sum of bytes
32..47" denotes the sum over `[32, 48)` — a range that includes the
checksum byte itself.  `file7` is a fully well-formed WBF file
(`from_wbf` succeeds), yet that claimed check fails on it, so "from_wbf
fails whenever any of the listed checks fails" is false as stated: the
code sums bytes `[32, 47)` only. -/
theorem c7_counterexample :
    (from_wbf file7).isOk = true
    ∧ bAt file7 47 ≠ basic_checksum file7 32 48 := by
  exact ⟨by decide, by decide⟩

/-! ### C9 -/

set_option maxRecDepth 8000 in
/-- C9 (counterexample): `from_wbf` accepts `file9`, whose temperature
thresholds are `[21, 21, 30]`; the parser never validates ordering, so
the invariant "the temperatures sequence is strictly ascending" does not
hold for every successfully parsed table. -/
theorem c9_counterexample :
    (from_wbf file9).isOk = true
    ∧ wbf_temperatures (from_wbf file9) = [21, 21, 30]
    ∧ ¬ List.Pairwise (fun a b => a < b) ([21, 21, 30] : List Int) := by
  exact ⟨by decide, by decide, by decide⟩

/-- The claim's header integrity checks, with the byte ranges read as the
source computes them: `checksum1` over bytes `[8, 31)` (8..30 inclusive),
`checksum2` over bytes `[32, 47)` (32..46 inclusive — the corrected
range), the CRC-32 over the file with its first four bytes zeroed, the
filesize field, and the fixed expected constants. -/
def wbf_header_checks (buf : List Nat) : Prop :=
  bAt buf 31 = basic_checksum buf 8 31
  ∧ bAt buf 47 = basic_checksum buf 32 47
  ∧ u32le buf 0 = crc32_update (crc32_update 0 [0, 0, 0, 0]) (buf.drop 4)
  ∧ u32le buf 4 = buf.length
  ∧ bAt buf 12 = 17 ∧ bAt buf 13 = 0 ∧ bAt buf 16 = 25 ∧ bAt buf 19 = 81
  ∧ bAt buf 22 = 0 ∧ bAt buf 25 = 0 ∧ bAt buf 35 = 1 ∧ bAt buf 36 = 4
  ∧ bAt buf 39 = 3

instance (buf : List Nat) : Decidable (wbf_header_checks buf) := by
  unfold wbf_header_checks
  infer_instance

set_option maxHeartbeats 1000000 in
set_option maxRecDepth 8000 in
theorem parse_header_checks_ok (buf : List Nat) (header hd : WbfHeader)
    (h : parse_header_checks buf header = .ok hd) :
    hd = header
    ∧ header.checksum1 = basic_checksum buf 8 31
    ∧ header.checksum2 = basic_checksum buf 32 47
    ∧ header.run_type = 17 ∧ header.fpl_platform = 0
    ∧ header.adhesive_run = 25 ∧ header.waveform_type = 81
    ∧ header.waveform_revision = 0 ∧ header.vcom_offset = 0
    ∧ header.fvsn = 1 ∧ header.luts = 4
    ∧ header.advanced_wfm_flags = 3 := by
  unfold parse_header_checks at h
  repeat first
    | exact absurd h (fun hc => Except.noConfusion hc)
    | split at h
  injection h with hh
  subst hh
  refine ⟨rfl, ?_, ?_, ?_, ?_, ?_, ?_, ?_, ?_, ?_, ?_, ?_⟩ <;>
    (apply not_ne_iff.mp; assumption)

set_option maxHeartbeats 1000000 in
theorem parse_header_ok_checks (buf : List Nat) (hd : WbfHeader)
    (h : parse_header buf = .ok hd) :
    hd = read_header buf
    ∧ bAt buf 31 = basic_checksum buf 8 31
    ∧ bAt buf 47 = basic_checksum buf 32 47
    ∧ bAt buf 12 = 17 ∧ bAt buf 13 = 0 ∧ bAt buf 16 = 25 ∧ bAt buf 19 = 81
    ∧ bAt buf 22 = 0 ∧ bAt buf 25 = 0 ∧ bAt buf 35 = 1 ∧ bAt buf 36 = 4
    ∧ bAt buf 39 = 3 := by
  unfold parse_header at h
  split at h
  · exact absurd h (fun hc => Except.noConfusion hc)
  · obtain ⟨hh, hs⟩ := parse_header_checks_ok buf (read_header buf) hd h
    exact ⟨hh, hs⟩

set_option maxHeartbeats 1000000 in
set_option maxRecDepth 8000 in
theorem from_wbf_ok_checks (buf : List Nat) (tbl : WaveformTable)
    (h : from_wbf buf = .ok tbl) : wbf_header_checks buf := by
  unfold from_wbf at h
  cases hph : parse_header buf with
  | error e => rw [hph] at h; exact absurd h (by simp)
  | ok header =>
      rw [hph] at h
      obtain ⟨hhd, hc1, hc2, hrt, hfp, har, hwt, hwr, hvo, hfv, hlu, haw⟩ :=
        parse_header_ok_checks buf header hph
      subst hhd
      split at h
      all_goals try exact absurd h (fun hc => Except.noConfusion hc)
      rename_i hdr heq
      injection heq with hh
      subst hh
      simp only [] at h
      split at h
      · exact absurd h (fun hc => Except.noConfusion hc)
      · split at h
        · exact absurd h (fun hc => Except.noConfusion hc)
        · rename_i hfs hcrc
          exact ⟨hc1, hc2, not_ne_iff.mp hcrc, not_ne_iff.mp hfs,
            hrt, hfp, har, hwt, hwr, hvo, hfv, hlu, haw⟩

/-- C7 (amended): whenever any of the header integrity checks fails —
`checksum1` (additive 8-bit sum of bytes 8..30), `checksum2` (additive
8-bit sum of bytes 32..46), the CRC-32 over the file with its first four
bytes zeroed, the filesize field versus the actual byte length, or any of
the fixed constants (`run_type = 17`, `fpl_platform = 0`,
`adhesive_run = 25`, `waveform_type = 81`, `waveform_revision = 0`,
`vcom_offset = 0`, `fvsn = 1`, `luts = 4`, `advanced_wfm_flags = 3`) —
`from_wbf` fails with an error and yields no table (the `Except` result
carries no partial load). -/
theorem c7_bad_header_never_loads (buf : List Nat)
    (h : ¬ wbf_header_checks buf) : (from_wbf buf).isOk = false := by
  cases hok : from_wbf buf with
  | error e => rfl
  | ok tbl => exact absurd (from_wbf_ok_checks buf tbl hok) h

set_option maxRecDepth 8000 in
/-- Witness for (amended) C7: 48 zero bytes — the additive checksums
match but `run_type` is 0, not 17 — are rejected. -/
theorem c7_witness :
    ¬ wbf_header_checks (List.replicate 48 0)
    ∧ (from_wbf (List.replicate 48 0)).isOk = false :=
  ⟨by decide, c7_bad_header_never_loads (List.replicate 48 0) (by decide)⟩

/-! ### C9: table invariants established by `from_wbf` -/

theorem except_bind_ok {ε α β : Type} (a : α) (f : α → Except ε β) :
    (Except.ok a : Except ε α) >>= f = f a := rfl

theorem parse_pointer_list_length (buf : List Nat) :
    ∀ (n pos : Nat) (row : List Nat),
      parse_pointer_list buf pos n = .ok row → row.length = n := by
  intro n
  induction n with
  | zero =>
      intro pos row h
      simp only [parse_pointer_list] at h
      injection h with hh
      rw [← hh]
      rfl
  | succ k ih =>
      intro pos row h
      unfold parse_pointer_list at h
      cases hp : parse_pointer buf pos with
      | error e => rw [hp] at h; exact absurd h (fun hc => Except.noConfusion hc)
      | ok p =>
          rw [hp] at h
          simp only [except_bind_ok] at h
          cases hr : parse_pointer_list buf (pos + 4) k with
          | error e =>
              rw [hr] at h; exact absurd h (fun hc => Except.noConfusion hc)
          | ok rest =>
              rw [hr] at h
              simp only [except_bind_ok] at h
              injection h with hh
              rw [← hh]
              simp [ih (pos + 4) rest hr]

theorem parse_grid_shape (buf : List Nat) (temp_count : Nat) :
    ∀ (n table_pos : Nat) (g : List (List Nat)),
      parse_grid buf table_pos temp_count n = .ok g →
      g.length = n ∧ ∀ row ∈ g, row.length = temp_count := by
  intro n
  induction n with
  | zero =>
      intro tp g h
      simp only [parse_grid] at h
      injection h with hh
      rw [← hh]
      exact ⟨rfl, by simp⟩
  | succ k ih =>
      intro tp g h
      unfold parse_grid at h
      cases hmp : parse_pointer buf tp with
      | error e => rw [hmp] at h; exact absurd h (fun hc => Except.noConfusion hc)
      | ok mp =>
          rw [hmp] at h
          simp only [except_bind_ok] at h
          cases hrow : parse_pointer_list buf mp temp_count with
          | error e =>
              rw [hrow] at h; exact absurd h (fun hc => Except.noConfusion hc)
          | ok row =>
              rw [hrow] at h
              simp only [except_bind_ok] at h
              cases hrest : parse_grid buf (tp + 4) temp_count k with
              | error e =>
                  rw [hrest] at h
                  exact absurd h (fun hc => Except.noConfusion hc)
              | ok rest =>
                  rw [hrest] at h
                  simp only [except_bind_ok] at h
                  injection h with hh
                  obtain ⟨hlen, hrows⟩ := ih (tp + 4) rest hrest
                  rw [← hh]
                  refine ⟨by simp [hlen], ?_⟩
                  intro r hr
                  rcases List.mem_cons.mp hr with hr2 | hr2
                  · rw [hr2]
                    exact parse_pointer_list_length buf temp_count mp row hrow
                  · exact hrows r hr2

theorem mem_setInsert (x v : Nat) :
    ∀ l : List Nat, (v = x ∨ v ∈ l) → v ∈ setInsert x l := by
  intro l
  induction l with
  | nil =>
      intro h
      rcases h with h | h
      · simp [setInsert, h]
      · simp at h
  | cons y ys ih =>
      intro h
      unfold setInsert
      split
      · rcases h with h | h
        · simp [h]
        · exact List.mem_cons_of_mem x h
      · split
        · rename_i hlt hxy
          rcases h with h | h
          · simp [h, hxy]
          · exact h
        · rcases h with h | h
          · exact List.mem_cons_of_mem y (ih (Or.inl h))
          · rcases List.mem_cons.mp h with h2 | h2
            · simp [h2]
            · exact List.mem_cons_of_mem y (ih (Or.inr h2))

theorem mem_setFold (l : List Nat) :
    ∀ (acc : List Nat) (v : Nat), (v ∈ acc ∨ v ∈ l) →
      v ∈ l.foldl (fun s x => setInsert x s) acc := by
  induction l with
  | nil =>
      intro acc v h
      rcases h with h | h
      · simpa using h
      · simp at h
  | cons a as ih =>
      intro acc v h
      simp only [List.foldl_cons]
      apply ih
      rcases h with h | h
      · exact Or.inl (mem_setInsert a v acc (Or.inr h))
      · rcases List.mem_cons.mp h with h2 | h2
        · exact Or.inl (mem_setInsert a v acc (Or.inl h2))
        · exact Or.inr h2

theorem mem_setOfList (l : List Nat) (v : Nat) (hv : v ∈ l) :
    v ∈ setOfList l :=
  mem_setFold l [] v (Or.inr hv)

theorem lowerBoundIdx_cons (a : Nat) (l : List Nat) (v : Nat) :
    lowerBoundIdx (a :: l) v =
      if a < v then lowerBoundIdx l v + 1 else 0 := by
  simp only [lowerBoundIdx, List.takeWhile]
  by_cases h : a < v <;> simp [h]

theorem lowerBoundIdx_lt_of_mem (v : Nat) :
    ∀ (s t : List Nat), v ∈ s → lowerBoundIdx (s ++ t) v < s.length := by
  intro s
  induction s with
  | nil => intro t hv; simp at hv
  | cons a s ih =>
      intro t hv
      rw [List.cons_append, lowerBoundIdx_cons]
      rcases List.mem_cons.mp hv with h2 | h2
      · have hna : ¬ a < v := by omega
        simp [hna]
      · by_cases hav : a < v
        · have := ih t h2
          simp only [hav, if_true, List.length_cons]
          omega
        · simp [hav]

theorem slice_waveforms_length (buf : List Nat) :
    ∀ bl : List Nat, (slice_waveforms buf bl).length = bl.length - 1 := by
  intro bl
  induction bl with
  | nil => rfl
  | cons a rest ih =>
      cases rest with
      | nil => rfl
      | cons b rest2 =>
          simp only [slice_waveforms, List.length_cons]
          rw [ih]
          simp only [List.length_cons]
          omega

theorem parse_temperatures_length (header : WbfHeader) (buf : List Nat)
    (pos : Nat) (temps : List Int) (pos2 : Nat)
    (h : parse_temperatures header buf pos = .ok (temps, pos2)) :
    temps.length = header.temp_range_count + 2 := by
  simp only [parse_temperatures] at h
  split at h
  · exact absurd h (fun hc => Except.noConfusion hc)
  · injection h with hh
    injection hh with h1 h2
    rw [← h1]
    simp

theorem populate_loop_keys (tbl : WaveformTable) :
    ∀ (n mode : Nat) (kinds : List ModeKind) (assoc : List (ModeKind × Nat))
      (res : List ModeKind × List (ModeKind × Nat)),
      List.Pairwise (fun p q => p.1 ≠ q.1) assoc →
      populate_loop tbl mode kinds assoc n = .ok res →
      List.Pairwise (fun p q => p.1 ≠ q.1) res.2 := by
  intro n
  induction n with
  | zero =>
      intro mode kinds assoc res hp h
      simp only [populate_loop] at h
      injection h with hh
      rw [← hh]
      exact hp
  | succ k ih =>
      intro mode kinds assoc res hp h
      unfold populate_loop at h
      cases hlk : lookup tbl mode 21 with
      | error e => rw [hlk] at h; exact absurd h (fun hc => Except.noConfusion hc)
      | ok wf =>
          rw [hlk] at h
          simp only [except_bind_ok] at h
          refine ih (mode + 1) _ _ res ?_ h
          by_cases h1 : classify_mode_kind wf = ModeKind.UNKNOWN
          · rw [if_pos h1]; exact hp
          · rw [if_neg h1]
            by_cases h2 :
                (assoc.find? fun p => decide (p.1 = classify_mode_kind wf)).isSome
            · rw [if_pos h2]; exact hp
            · rw [if_neg h2]
              rw [List.pairwise_append]
              refine ⟨hp, by simp, ?_⟩
              intro p hpmem q hq
              rw [List.mem_singleton] at hq
              subst hq
              have hfind :
                  assoc.find? (fun r => decide (r.1 = classify_mode_kind wf))
                    = none :=
                Option.not_isSome_iff_eq_none.mp h2
              have hne := List.find?_eq_none.mp hfind p hpmem
              simpa using hne

theorem listGetD_map {α β : Type} (f : α → β) :
    ∀ (l : List α) (i : Nat) (d : β) (d0 : α), i < l.length →
      (l.map f).getD i d = f (l.getD i d0) := by
  intro l
  induction l with
  | nil => intro i d d0 h; simp at h
  | cons a l ih =>
      intro i d d0 h
      cases i with
      | zero => simp
      | succ j =>
          simp only [List.map_cons, List.getD_cons_succ]
          exact ih j d d0 (by simpa using h)

set_option maxHeartbeats 1000000 in
set_option maxRecDepth 8000 in
theorem from_wbf_ok_structure (buf : List Nat) (tbl : WaveformTable)
    (h : from_wbf buf = .ok tbl) :
    ∃ grid : List (List Nat),
      grid.length = (read_header buf).mode_count + 1
      ∧ (∀ row ∈ grid, row.length = (read_header buf).temp_range_count + 1)
      ∧ tbl.mode_count = ((read_header buf).mode_count + 1) % 256
      ∧ tbl.temperatures.length = (read_header buf).temp_range_count + 2
      ∧ tbl.waveform_lookup =
          grid.map (fun row => row.map (fun v =>
            lowerBoundIdx (setOfList grid.flatten ++ [buf.length]) v))
      ∧ tbl.waveforms =
          slice_waveforms buf (setOfList grid.flatten ++ [buf.length])
      ∧ List.Pairwise (fun p q : ModeKind × Nat => p.1 ≠ q.1)
          tbl.mode_id_by_kind := by
  unfold from_wbf at h
  cases hph : parse_header buf with
  | error e => rw [hph] at h; exact absurd h (fun hc => Except.noConfusion hc)
  | ok header =>
      rw [hph] at h
      have hhd := (parse_header_ok_checks buf header hph).1
      subst hhd
      split at h
      all_goals try exact absurd h (fun hc => Except.noConfusion hc)
      rename_i hdr heq
      injection heq with hh
      subst hh
      simp only [] at h
      split at h
      · exact absurd h (fun hc => Except.noConfusion hc)
      · split at h
        · exact absurd h (fun hc => Except.noConfusion hc)
        · split at h
          all_goals try exact absurd h (fun hc => Except.noConfusion hc)
          rename_i temps it1 hpt
          split at h
          all_goals try exact absurd h (fun hc => Except.noConfusion hc)
          rename_i blocks0 hfb
          split at h
          all_goals try exact absurd h (fun hc => Except.noConfusion hc)
          rename_i wfs lkp hpw
          split at h
          all_goals try exact absurd h (fun hc => Except.noConfusion hc)
          rename_i tbl2 hpo
          injection h with htbl
          subst htbl
          unfold find_waveform_blocks at hfb
          cases hpg : parse_grid buf (it1 + bAt buf it1 + 2)
              ((read_header buf).temp_range_count + 1)
              ((read_header buf).mode_count + 1) with
          | error e =>
              rw [hpg] at hfb
              exact absurd hfb (fun hc => Except.noConfusion hc)
          | ok g =>
              rw [hpg] at hfb
              simp only [Except.map] at hfb
              injection hfb with hbl
              subst hbl
              unfold parse_waveforms at hpw
              rw [hpg] at hpw
              simp only [except_bind_ok] at hpw
              injection hpw with hpair
              injection hpair with hwfs hlkp
              subst hwfs
              subst hlkp
              unfold populate_mode_kind_mappings at hpo
              split at hpo
              · exact absurd hpo (fun hc => Except.noConfusion hc)
              · rename_i kinds assoc hpl
                injection hpo with htbl2
                subst htbl2
                obtain ⟨hglen, hrows⟩ :=
                  parse_grid_shape buf ((read_header buf).temp_range_count + 1)
                    ((read_header buf).mode_count + 1)
                    (it1 + bAt buf it1 + 2) g hpg
                refine ⟨g, hglen, hrows, rfl, ?_, rfl, rfl, ?_⟩
                · exact parse_temperatures_length (read_header buf) buf 48
                    temps it1 hpt
                · exact populate_loop_keys _ _ 0 [] [] (kinds, assoc)
                    List.Pairwise.nil hpl

/-- C9 (amended): every `WaveformTable` returned by a successful
`from_wbf` satisfies the two structural table invariants: for every mode
in `[0, mode_count)` and every temperature range
`r ∈ [0, len(temperatures) - 1)`, `lookup[mode][r]` indexes a valid entry
of the waveforms vector; and the reverse classification map holds at most
one mode id per mode kind.  (The claim's third invariant — strictly
ascending temperatures — does not hold: the parser never validates the
ordering; see the counterexample.) -/
theorem c9_from_wbf_invariants (buf : List Nat) (tbl : WaveformTable)
    (h : from_wbf buf = .ok tbl) :
    (∀ m, m < tbl.mode_count → ∀ r, r + 1 < tbl.temperatures.length →
      (tbl.waveform_lookup.getD m []).getD r 0 < tbl.waveforms.length)
    ∧ List.Pairwise (fun p q : ModeKind × Nat => p.1 ≠ q.1)
        tbl.mode_id_by_kind := by
  obtain ⟨g, hglen, hrows, hmc, htlen, hlkp, hwfs, hkeys⟩ :=
    from_wbf_ok_structure buf tbl h
  refine ⟨?_, hkeys⟩
  intro m hm r hr
  have hmg : m < g.length := by
    rw [hglen]
    rw [hmc] at hm
    have h1 := Nat.mod_le ((read_header buf).mode_count + 1) 256
    omega
  have hrowlen : (g.getD m []).length = (read_header buf).temp_range_count + 1 :=
    hrows _ (listGetD_mem g m [] hmg)
  have hrm : r < (g.getD m []).length := by
    rw [hrowlen]
    rw [htlen] at hr
    omega
  rw [hlkp]
  rw [listGetD_map (fun row => row.map (fun v =>
    lowerBoundIdx (setOfList g.flatten ++ [buf.length]) v)) g m [] [] hmg]
  rw [listGetD_map (fun v =>
    lowerBoundIdx (setOfList g.flatten ++ [buf.length]) v) (g.getD m []) r 0 0 hrm]
  have hlen2 :
      (slice_waveforms buf (setOfList g.flatten ++ [buf.length])).length
        = (setOfList g.flatten).length := by
    rw [slice_waveforms_length]
    simp
  rw [hwfs, hlen2]
  have hv : (g.getD m []).getD r 0 ∈ g.flatten :=
    List.mem_flatten.mpr
      ⟨g.getD m [], listGetD_mem g m [] hmg, listGetD_mem (g.getD m []) r 0 hrm⟩
  exact lowerBoundIdx_lt_of_mem ((g.getD m []).getD r 0)
    (setOfList g.flatten) [buf.length]
    (mem_setOfList g.flatten ((g.getD m []).getD r 0) hv)

/-- The table a successful `from_wbf` returns (an arbitrary placeholder
for failing inputs), to state the C9 witness concretely. -/
def wbf_table_of (buf : List Nat) : WaveformTable :=
  match from_wbf buf with
  | .ok t => t
  | .error _ => ⟨0, 0, [], [], [], [], []⟩

set_option maxHeartbeats 1000000 in
set_option maxRecDepth 8000 in
/-- Witness for (amended) C9: the minimal valid file loads and its table
satisfies both invariants. -/
theorem c9_witness :
    from_wbf file7 = .ok (wbf_table_of file7)
    ∧ ((∀ m, m < (wbf_table_of file7).mode_count → ∀ r,
          r + 1 < (wbf_table_of file7).temperatures.length →
          ((wbf_table_of file7).waveform_lookup.getD m []).getD r 0
            < (wbf_table_of file7).waveforms.length)
        ∧ List.Pairwise (fun p q : ModeKind × Nat => p.1 ≠ q.1)
            (wbf_table_of file7).mode_id_by_kind) :=
  ⟨rfl, c9_from_wbf_invariants file7 (wbf_table_of file7) rfl⟩

/-! ### C4: batch frame generation (display.cpp)

`Display::generate_batch` seeds every frame with a copy of `null_frame`
and runs a two-level loop over the update region, packing eight phases
into two bytes per frame pixel.  `check_consecutive` precomputes, per
group of eight pixels, whether both the previous-intensity octet and the
update-buffer octet are identical to those of the group processed just
before (in iteration order); in that case the generation loop reuses the
bytes packed for the previous group.  `null_frame` contents are
irrelevant to the claim and are modelled as an arbitrary byte map. -/

/-- The eight intensity values starting at `p` of an intensity map (the
octet one `std::equal` call in `check_consecutive` compares). -/
def octetF (f : Nat → Nat) (p : Nat) : List Nat :=
  (List.range 8).map (fun j => f (p + j))

/-- The eight buffer bytes starting at `p` (the other `std::equal`). -/
def octetL (buf : List Nat) (p : Nat) : List Nat :=
  (List.range 8).map (fun j => buf.getD (p + j) 0)

/-- State threaded through `check_consecutive`: the `prev` pointer into
the panel intensity array, the `next` pointer into the update buffer, the
`first` flag, the `last_prevs` / `last_nexts` arrays and the result bits
produced so far. -/
structure CCState where
  p : Nat
  n : Nat
  first : Bool
  lp : List Nat
  ln : List Nat
  acc : List Bool

/-- One iteration of the inner loop of `check_consecutive`. -/
def cc_step (cur : Nat → Nat) (buf : List Nat) (s : CCState) : CCState :=
  let b := !s.first && decide (octetF cur s.p = s.lp)
    && decide (octetL buf s.n = s.ln)
  { p := s.p + 8, n := s.n + 8, first := false,
    lp := octetF cur s.p, ln := octetL buf s.n, acc := s.acc ++ [b] }

/-- The inner `x` loop of `check_consecutive`. -/
def cc_row (cur : Nat → Nat) (buf : List Nat) : Nat → CCState → CCState
  | 0, s => s
  | x + 1, s => cc_row cur buf x (cc_step cur buf s)

/-- The outer `y` loop: after each row only the `prev` pointer skips to
the next panel row (`next` reads the contiguous update buffer). -/
def cc_rows (cur : Nat → Nat) (buf : List Nat) (g rowskip : Nat) :
    Nat → CCState → CCState
  | 0, s => s
  | y + 1, s =>
      let s2 := cc_row cur buf g s
      cc_rows cur buf g rowskip y { s2 with p := s2.p + rowskip }

/-- Embedding of `Display::check_consecutive` (the `last_prevs` /
`last_nexts` arrays start uninitialized and unread behind the `first`
flag; they are seeded with zeros here). -/
def check_consecutive (u : Update) (cur : Nat → Nat) : List Bool :=
  (cc_rows cur u.buffer (u.region.width / buf_actual_depth)
    (epd_width - u.region.width) u.region.height
    { p := u.region.top * epd_width + u.region.left, n := 0,
      first := true, lp := List.replicate 8 0, ln := List.replicate 8 0,
      acc := [] }).acc

/-- The eight phases of one group: `matrix[*prev++][*next++]` reading the
previous intensities at `p + j` and the target intensities at `q + j`. -/
def gvals (matrix : PhaseMatrix) (cur nxt : Nat → Nat) (p q : Nat) :
    Nat → Nat :=
  fun j => matrix (cur (p + j)) (nxt (q + j))

/-- `byte1`: phases 5–8 of the group, packed two bits each with phase 5
in the most significant pair (each phase cast to `uint8` first, the
result stored as `uint8`). -/
def packLow (v : Nat → Nat) : Nat :=
  ((v 4 % 256) <<< 6 ||| (v 5 % 256) <<< 4 ||| (v 6 % 256) <<< 2
    ||| v 7 % 256) % 256

/-- `byte2`: phases 1–4 of the group, packed the same way. -/
def packHigh (v : Nat → Nat) : Nat :=
  ((v 0 % 256) <<< 6 ||| (v 1 % 256) <<< 4 ||| (v 2 % 256) <<< 2
    ||| v 3 % 256) % 256

/-- State threaded through the frame generation loop of
`generate_batch`: the `prev` and `next` pointers, the `data` byte offset
into the frame, the flat group counter `i`, the persistent `byte1` /
`byte2` and the frame bytes written so far. -/
structure GBState where
  p : Nat
  q : Nat
  d : Nat
  i : Nat
  b1 : Nat
  b2 : Nat
  frame : Nat → Nat

/-- One byte store through the `data` pointer. -/
def bwrite (f : Nat → Nat) (a v : Nat) : Nat → Nat :=
  fun x => if x = a then v else f x

/-- One group of the generation loop: recompute `byte1` / `byte2` unless
`is_consecutive[i]`, then store them at `data` and `data + 1` and skip
the remaining two bytes of the frame pixel. -/
def gb_group (matrix : PhaseMatrix) (cur nxt : Nat → Nat) (cons : List Bool)
    (s : GBState) : GBState :=
  let c := cons.getD s.i false
  let b1 := if c then s.b1 else packLow (gvals matrix cur nxt s.p s.q)
  let b2 := if c then s.b2 else packHigh (gvals matrix cur nxt s.p s.q)
  { p := s.p + 8, q := s.q + 8, d := s.d + 4, i := s.i + 1,
    b1 := b1, b2 := b2,
    frame := bwrite (bwrite s.frame s.d b1) (s.d + 1) b2 }

/-- The inner `x` loop of the generation loop. -/
def gb_row (matrix : PhaseMatrix) (cur nxt : Nat → Nat) (cons : List Bool) :
    Nat → GBState → GBState
  | 0, s => s
  | x + 1, s => gb_row matrix cur nxt cons x (gb_group matrix cur nxt cons s)

/-- The outer `y` loop: between rows `prev` and `next` skip to the next
panel row and `data` skips to the next frame row.  (The pointer strides
are embedded with truncated subtraction; for regions inside the panel —
the only case in which the C++ pointer arithmetic is defined — the
subtrahends are smaller.) -/
def gb_rows (matrix : PhaseMatrix) (cur nxt : Nat → Nat) (cons : List Bool)
    (g pskip dskip : Nat) : Nat → GBState → GBState
  | 0, s => s
  | y + 1, s =>
      let s2 := gb_row matrix cur nxt cons g s
      gb_rows matrix cur nxt cons g pskip dskip y
        { s2 with p := s2.p + pskip, q := s2.q + pskip, d := s2.d + dskip }

/-- One frame of `generate_batch`: start from `null_frame` (`nf`) and run
the generation loop for one phase matrix over the update region. -/
def generate_frame (u : Update) (matrix : PhaseMatrix) (cur nxt nf : Nat → Nat) :
    Nat → Nat :=
  (gb_rows matrix cur nxt (check_consecutive u cur)
    (u.region.width / buf_actual_depth) (epd_width - u.region.width)
    (buf_stride - (u.region.width / buf_actual_depth) * buf_depth)
    u.region.height
    { p := u.region.top * epd_width + u.region.left,
      q := u.region.top * epd_width + u.region.left,
      d := (margin_top + u.region.top) * buf_stride
        + (margin_left + u.region.left / buf_actual_depth) * buf_depth,
      i := 0, b1 := 0, b2 := 0, frame := nf }).frame

/-- All frames of one `generate_batch` call: one per waveform matrix,
each generated against the same previous and target intensities. -/
def generate_batch_frames (u : Update) (waveform : Waveform)
    (cur nf : Nat → Nat) : List (Nat → Nat) :=
  waveform.map (fun matrix =>
    generate_frame u matrix cur (generate_batch_intensity u cur) nf)

/-- The `k`-th generated frame. -/
def batch_frame (u : Update) (waveform : Waveform) (cur nf : Nat → Nat)
    (k : Nat) : Nat → Nat :=
  (generate_batch_frames u waveform cur nf).getD k (fun _ => 0)

/-- Panel pixel index of the first pixel of group `g` in row `y` of the
update region. -/
def group_pix (u : Update) (y g : Nat) : Nat :=
  (u.region.top + y) * epd_width + u.region.left + 8 * g

/-- Frame byte offset of the frame pixel of group `(y, g)`, as the claim
states it. -/
def frame_off (u : Update) (y g : Nat) : Nat :=
  (margin_top + u.region.top) * buf_stride
    + (margin_left + u.region.left / buf_actual_depth) * buf_depth
    + y * buf_stride + g * buf_depth

/-- The claim's 16-bit word
`(p0<<14)|(p1<<12)|(p2<<10)|(p3<<8)|(p4<<6)|(p5<<4)|(p6<<2)|p7`. -/
def wordOf (v : Nat → Nat) : Nat :=
  v 0 <<< 14 ||| v 1 <<< 12 ||| v 2 <<< 10 ||| v 3 <<< 8
    ||| v 4 <<< 6 ||| v 5 <<< 4 ||| v 6 <<< 2 ||| v 7

/-- The claim's word for group `(y, g)`: phase `p_i` is the matrix entry
at (previous intensity, target intensity) of pixel `i` of the group. -/
def claim_word (u : Update) (matrix : PhaseMatrix) (cur nxt : Nat → Nat)
    (y g : Nat) : Nat :=
  wordOf (gvals matrix cur nxt (group_pix u y g) (group_pix u y g))

set_option synthInstance.maxSize 2000 in
set_option synthInstance.maxHeartbeats 1000000 in
set_option maxRecDepth 100000 in
set_option maxHeartbeats 8000000 in
theorem pack_bytes_val :
    ∀ a < 4, ∀ b < 4, ∀ c < 4, ∀ d < 4, ∀ e < 4, ∀ f < 4, ∀ g < 4, ∀ h < 4,
      ((((e % 256) <<< 6 ||| (f % 256) <<< 4 ||| (g % 256) <<< 2 ||| h % 256) % 256 : Nat)
        = (a <<< 14 ||| b <<< 12 ||| c <<< 10 ||| d <<< 8
            ||| e <<< 6 ||| f <<< 4 ||| g <<< 2 ||| h) % 256)
      ∧ ((((a % 256) <<< 6 ||| (b % 256) <<< 4 ||| (c % 256) <<< 2 ||| d % 256) % 256 : Nat)
        = (a <<< 14 ||| b <<< 12 ||| c <<< 10 ||| d <<< 8
            ||| e <<< 6 ||| f <<< 4 ||| g <<< 2 ||| h) / 256) := by
  decide

theorem pack_word (v : Nat → Nat) (hv : ∀ j, j < 8 → v j < 4) :
    packLow v = wordOf v % 256 ∧ packHigh v = wordOf v / 256 := by
  have h := pack_bytes_val (v 0) (hv 0 (by omega)) (v 1) (hv 1 (by omega))
    (v 2) (hv 2 (by omega)) (v 3) (hv 3 (by omega)) (v 4) (hv 4 (by omega))
    (v 5) (hv 5 (by omega)) (v 6) (hv 6 (by omega)) (v 7) (hv 7 (by omega))
  exact ⟨h.1, h.2⟩

theorem packLow_congr (v w : Nat → Nat) (h : ∀ j, j < 8 → v j = w j) :
    packLow v = packLow w := by
  unfold packLow
  rw [h 4 (by omega), h 5 (by omega), h 6 (by omega), h 7 (by omega)]

theorem packHigh_congr (v w : Nat → Nat) (h : ∀ j, j < 8 → v j = w j) :
    packHigh v = packHigh w := by
  unfold packHigh
  rw [h 0 (by omega), h 1 (by omega), h 2 (by omega), h 3 (by omega)]

theorem range8_getD : ∀ j, j < 8 → (List.range 8).getD j 0 = j := by decide

theorem octetF_get (f : Nat → Nat) (p j : Nat) (hj : j < 8) :
    (octetF f p).getD j 0 = f (p + j) := by
  unfold octetF
  rw [listGetD_map (fun t => f (p + t)) (List.range 8) j 0 0 (by simp [hj]),
    range8_getD j hj]

theorem octetL_get (buf : List Nat) (p j : Nat) (hj : j < 8) :
    (octetL buf p).getD j 0 = buf.getD (p + j) 0 := by
  unfold octetL
  rw [listGetD_map (fun t => buf.getD (p + t) 0) (List.range 8) j 0 0
    (by simp [hj]), range8_getD j hj]

theorem octetF_apply (f : Nat → Nat) (a b : Nat) (h : octetF f a = octetF f b)
    (j : Nat) (hj : j < 8) : f (a + j) = f (b + j) := by
  have h2 : (octetF f a).getD j 0 = (octetF f b).getD j 0 :=
    congrArg (fun l => l.getD j 0) h
  rw [octetF_get f a j hj, octetF_get f b j hj] at h2
  exact h2

theorem octetL_apply (buf : List Nat) (a b : Nat)
    (h : octetL buf a = octetL buf b) (j : Nat) (hj : j < 8) :
    buf.getD (a + j) 0 = buf.getD (b + j) 0 := by
  have h2 : (octetL buf a).getD j 0 = (octetL buf b).getD j 0 :=
    congrArg (fun l => l.getD j 0) h
  rw [octetL_get buf a j hj, octetL_get buf b j hj] at h2
  exact h2

theorem cc_step_eq (cur : Nat → Nat) (buf : List Nat) (s : CCState) :
    cc_step cur buf s =
      { p := s.p + 8, n := s.n + 8, first := false,
        lp := octetF cur s.p, ln := octetL buf s.n,
        acc := s.acc ++ [!s.first && decide (octetF cur s.p = s.lp)
          && decide (octetL buf s.n = s.ln)] } := rfl

/-- Loop invariant of `check_consecutive`: `n` tracks the group count,
after the first group `last_prevs` / `last_nexts` hold the octets of the
group just processed, and every bit produced so far is sound: a `true` at
flat index `k` certifies that the intensity octet at position `pi k`
equals the one at `pi (k - 1)` and that the buffer octet at `8k` equals
the one at `8k - 8`. -/
def ccInv (cur : Nat → Nat) (buf : List Nat) (pi : Nat → Nat)
    (s : CCState) : Prop :=
  s.n = 8 * s.acc.length
  ∧ (s.first = false →
      0 < s.acc.length
      ∧ s.lp = octetF cur (pi (s.acc.length - 1))
      ∧ s.ln = octetL buf (8 * s.acc.length - 8))
  ∧ (∀ k, s.acc.getD k false = true →
      0 < k ∧ octetF cur (pi k) = octetF cur (pi (k - 1))
      ∧ octetL buf (8 * k) = octetL buf (8 * k - 8))

theorem cc_step_inv (cur : Nat → Nat) (buf : List Nat) (pi : Nat → Nat)
    (s : CCState) (hpos : pi s.acc.length = s.p)
    (hinv : ccInv cur buf pi s) :
    (cc_step cur buf s).acc.length = s.acc.length + 1
    ∧ (cc_step cur buf s).p = s.p + 8
    ∧ ccInv cur buf pi (cc_step cur buf s) := by
  obtain ⟨hn, hfirst, hsound⟩ := hinv
  have hlen1 : ∀ x : Bool, (s.acc ++ [x]).length - 1 = s.acc.length := by
    intro x; simp
  have hlen8 : ∀ x : Bool, 8 * (s.acc ++ [x]).length - 8 = 8 * s.acc.length := by
    intro x; simp; omega
  refine ⟨by simp [cc_step_eq], by simp [cc_step_eq], ?_⟩
  unfold ccInv
  simp only [cc_step_eq]
  refine ⟨?_, ?_, ?_⟩
  · simp only [List.length_append, List.length_cons, List.length_nil]
    omega
  · intro _
    refine ⟨by simp, ?_, ?_⟩
    · rw [hlen1, hpos]
    · rw [hlen8, ← hn]
  · intro k hk
    by_cases hklt : k < s.acc.length
    · rw [listGetD_append_left s.acc _ k false hklt] at hk
      exact hsound k hk
    · by_cases hkeq : k = s.acc.length
      · subst hkeq
        rw [listGetD_append_len] at hk
        simp only [Bool.and_eq_true, Bool.not_eq_true'] at hk
        obtain ⟨⟨hf, hlpe⟩, hlne⟩ := hk
        obtain ⟨hpos0, hlp, hln⟩ := hfirst hf
        refine ⟨hpos0, ?_, ?_⟩
        · rw [hpos]
          exact (of_decide_eq_true hlpe).trans hlp
        · have h3 := (of_decide_eq_true hlne).trans hln
          rw [hn] at h3
          exact h3
      · rw [List.getD_eq_default] at hk
        · exact absurd hk (by simp)
        · simp only [List.length_append, List.length_cons, List.length_nil]
          omega

theorem cc_row_inv (cur : Nat → Nat) (buf : List Nat) (pi : Nat → Nat) :
    ∀ (x : Nat) (s : CCState),
      (∀ t, t < x → pi (s.acc.length + t) = s.p + 8 * t) →
      ccInv cur buf pi s →
      (cc_row cur buf x s).acc.length = s.acc.length + x
      ∧ (cc_row cur buf x s).p = s.p + 8 * x
      ∧ ccInv cur buf pi (cc_row cur buf x s) := by
  intro x
  induction x with
  | zero =>
      intro s hpos hinv
      exact ⟨by simp [cc_row], by simp [cc_row], hinv⟩
  | succ x ih =>
      intro s hpos hinv
      obtain ⟨hlen1, hp1, hinv1⟩ :=
        cc_step_inv cur buf pi s (by simpa using hpos 0 (by omega)) hinv
      have hpos2 : ∀ t, t < x →
          pi ((cc_step cur buf s).acc.length + t) = (cc_step cur buf s).p + 8 * t := by
        intro t ht
        rw [hlen1, hp1]
        have h2 := hpos (t + 1) (by omega)
        rw [show s.acc.length + 1 + t = s.acc.length + (t + 1) from by omega, h2]
        omega
      obtain ⟨hlen2, hp2, hinv2⟩ := ih (cc_step cur buf s) hpos2 hinv1
      have hrec : cc_row cur buf (x + 1) s = cc_row cur buf x (cc_step cur buf s) := rfl
      refine ⟨?_, ?_, ?_⟩
      · rw [hrec, hlen2, hlen1]; omega
      · rw [hrec, hp2, hp1]; omega
      · rw [hrec]; exact hinv2

theorem cc_rows_inv (cur : Nat → Nat) (buf : List Nat) (pi : Nat → Nat)
    (g pskip : Nat) :
    ∀ (h : Nat) (s : CCState),
      (∀ yy, yy < h → ∀ t, t < g →
        pi (s.acc.length + yy * g + t) = s.p + yy * (8 * g + pskip) + 8 * t) →
      ccInv cur buf pi s →
      (cc_rows cur buf g pskip h s).acc.length = s.acc.length + h * g
      ∧ ccInv cur buf pi (cc_rows cur buf g pskip h s) := by
  intro h
  induction h with
  | zero => intro s hpos hinv; exact ⟨by simp [cc_rows], hinv⟩
  | succ h ih =>
      intro s hpos hinv
      obtain ⟨hlen1, hp1, hinv1⟩ := cc_row_inv cur buf pi g s (by
        intro t ht
        simpa using hpos 0 (by omega) t ht) hinv
      have hrec : cc_rows cur buf g pskip (h + 1) s
          = cc_rows cur buf g pskip h
              { cc_row cur buf g s with p := (cc_row cur buf g s).p + pskip } := rfl
      have hpos2 : ∀ yy, yy < h → ∀ t, t < g →
          pi (({ cc_row cur buf g s with
              p := (cc_row cur buf g s).p + pskip } : CCState).acc.length + yy * g + t)
            = ({ cc_row cur buf g s with
              p := (cc_row cur buf g s).p + pskip } : CCState).p
              + yy * (8 * g + pskip) + 8 * t := by
        intro yy hyy t ht
        show pi ((cc_row cur buf g s).acc.length + yy * g + t)
          = (cc_row cur buf g s).p + pskip + yy * (8 * g + pskip) + 8 * t
        rw [hlen1, hp1]
        have h2 := hpos (yy + 1) (by omega) t ht
        rw [Nat.succ_mul, Nat.succ_mul] at h2
        rw [show s.acc.length + g + yy * g + t
          = s.acc.length + (yy * g + g) + t from by omega, h2]
        omega
      obtain ⟨hlen2, hinv2⟩ := ih _ hpos2 hinv1
      refine ⟨?_, ?_⟩
      · rw [hrec, hlen2]
        show (cc_row cur buf g s).acc.length + h * g = s.acc.length + (h + 1) * g
        rw [hlen1, Nat.succ_mul]
        omega
      · rw [hrec]; exact hinv2

/-- `byte1` / `byte2` invariant of the generation loop: once at least one
group has been processed they hold the packed bytes of the group with the
previous flat index. -/
def gbBytesInv (V : Nat → Nat → Nat) (s : GBState) : Prop :=
  0 < s.i → s.b1 = packLow (V (s.i - 1)) ∧ s.b2 = packHigh (V (s.i - 1))

/-- The state after one group, in terms of the per-group byte values
`V`. -/
def gb_next (V : Nat → Nat → Nat) (s : GBState) : GBState :=
  { p := s.p + 8, q := s.q + 8, d := s.d + 4, i := s.i + 1,
    b1 := packLow (V s.i), b2 := packHigh (V s.i),
    frame := bwrite (bwrite s.frame s.d (packLow (V s.i))) (s.d + 1)
      (packHigh (V s.i)) }

theorem gb_group_eq (matrix : PhaseMatrix) (cur nxt : Nat → Nat)
    (cons : List Bool) (V : Nat → Nat → Nat) (s : GBState)
    (hcons : cons.getD s.i false = true →
      0 < s.i ∧ ∀ j, j < 8 → V s.i j = V (s.i - 1) j)
    (hV : ∀ j, j < 8 → V s.i j = gvals matrix cur nxt s.p s.q j)
    (hb : gbBytesInv V s) :
    gb_group matrix cur nxt cons s = gb_next V s := by
  unfold gb_next
  cases hcb : cons.getD s.i false with
  | true =>
      obtain ⟨hi, hvv⟩ := hcons hcb
      obtain ⟨hb1, hb2⟩ := hb hi
      simp only [gb_group, hcb, reduceIte]
      rw [hb1, hb2,
        packLow_congr (V (s.i - 1)) (V s.i) (fun j hj => (hvv j hj).symm),
        packHigh_congr (V (s.i - 1)) (V s.i) (fun j hj => (hvv j hj).symm)]
  | false =>
      simp only [gb_group, hcb, reduceIte]
      rw [← packLow_congr (V s.i) (gvals matrix cur nxt s.p s.q) hV,
        ← packHigh_congr (V s.i) (gvals matrix cur nxt s.p s.q) hV]
      simp

theorem gb_row_spec (matrix : PhaseMatrix) (cur nxt : Nat → Nat)
    (cons : List Bool) (V : Nat → Nat → Nat)
    (hcons : ∀ k, cons.getD k false = true →
      0 < k ∧ ∀ j, j < 8 → V k j = V (k - 1) j) :
    ∀ (x : Nat) (s : GBState),
      (∀ t, t < x → ∀ j, j < 8 →
        V (s.i + t) j = gvals matrix cur nxt (s.p + 8 * t) (s.q + 8 * t) j) →
      gbBytesInv V s →
      (gb_row matrix cur nxt cons x s).p = s.p + 8 * x
      ∧ (gb_row matrix cur nxt cons x s).q = s.q + 8 * x
      ∧ (gb_row matrix cur nxt cons x s).d = s.d + 4 * x
      ∧ (gb_row matrix cur nxt cons x s).i = s.i + x
      ∧ gbBytesInv V (gb_row matrix cur nxt cons x s)
      ∧ (∀ t, t < x →
          (gb_row matrix cur nxt cons x s).frame (s.d + 4 * t)
            = packLow (V (s.i + t))
          ∧ (gb_row matrix cur nxt cons x s).frame (s.d + 4 * t + 1)
            = packHigh (V (s.i + t)))
      ∧ (∀ a, (∀ t, t < x → a ≠ s.d + 4 * t ∧ a ≠ s.d + 4 * t + 1) →
          (gb_row matrix cur nxt cons x s).frame a = s.frame a) := by
  intro x
  induction x with
  | zero =>
      intro s hV hb
      refine ⟨by simp [gb_row], by simp [gb_row], by simp [gb_row],
        by simp [gb_row], hb, ?_, ?_⟩
      · intro t ht; omega
      · intro a ha; rfl
  | succ x ih =>
      intro s hV hb
      have heq := gb_group_eq matrix cur nxt cons V s (hcons s.i)
        (fun j hj => by simpa using hV 0 (by omega) j hj) hb
      have hrec : gb_row matrix cur nxt cons (x + 1) s
          = gb_row matrix cur nxt cons x (gb_group matrix cur nxt cons s) := rfl
      rw [hrec, heq]
      have hV2 : ∀ t, t < x → ∀ j, j < 8 →
          V ((gb_next V s).i + t) j
            = gvals matrix cur nxt ((gb_next V s).p + 8 * t)
                ((gb_next V s).q + 8 * t) j := by
        intro t ht j hj
        show V (s.i + 1 + t) j
          = gvals matrix cur nxt (s.p + 8 + 8 * t) (s.q + 8 + 8 * t) j
        have h2 := hV (t + 1) (by omega) j hj
        rw [show s.i + (t + 1) = s.i + 1 + t from by omega,
          show s.p + 8 * (t + 1) = s.p + 8 + 8 * t from by omega,
          show s.q + 8 * (t + 1) = s.q + 8 + 8 * t from by omega] at h2
        exact h2
      have hb2 : gbBytesInv V (gb_next V s) := by
        intro _
        refine ⟨?_, ?_⟩
        · show packLow (V s.i) = packLow (V (s.i + 1 - 1))
          simp
        · show packHigh (V s.i) = packHigh (V (s.i + 1 - 1))
          simp
      obtain ⟨ihp, ihq, ihd, ihi, ihb, ihw, ihu⟩ := ih (gb_next V s) hV2 hb2
      refine ⟨?_, ?_, ?_, ?_, ihb, ?_, ?_⟩
      · rw [ihp]; show s.p + 8 + 8 * x = s.p + 8 * (x + 1); omega
      · rw [ihq]; show s.q + 8 + 8 * x = s.q + 8 * (x + 1); omega
      · rw [ihd]; show s.d + 4 + 4 * x = s.d + 4 * (x + 1); omega
      · rw [ihi]; show s.i + 1 + x = s.i + (x + 1); omega
      · intro t ht
        cases t with
        | zero =>
            have hu0 := ihu s.d (by
              intro t2 ht2
              refine ⟨?_, ?_⟩
              · show s.d ≠ s.d + 4 + 4 * t2
                omega
              · show s.d ≠ s.d + 4 + 4 * t2 + 1
                omega)
            have hu1 := ihu (s.d + 1) (by
              intro t2 ht2
              refine ⟨?_, ?_⟩
              · show s.d + 1 ≠ s.d + 4 + 4 * t2
                omega
              · show s.d + 1 ≠ s.d + 4 + 4 * t2 + 1
                omega)
            refine ⟨?_, ?_⟩
            · rw [show s.d + 4 * 0 = s.d from by omega, hu0]
              show bwrite (bwrite s.frame s.d (packLow (V s.i))) (s.d + 1)
                (packHigh (V s.i)) s.d = packLow (V (s.i + 0))
              simp [bwrite]
            · rw [show s.d + 4 * 0 + 1 = s.d + 1 from by omega, hu1]
              show bwrite (bwrite s.frame s.d (packLow (V s.i))) (s.d + 1)
                (packHigh (V s.i)) (s.d + 1) = packHigh (V (s.i + 0))
              simp [bwrite]
        | succ t2 =>
            have hw2 := ihw t2 (by omega)
            have e1 : (gb_next V s).d = s.d + 4 := rfl
            have e2 : (gb_next V s).i = s.i + 1 := rfl
            rw [e1, e2] at hw2
            refine ⟨?_, ?_⟩
            · rw [show s.d + 4 * (t2 + 1) = s.d + 4 + 4 * t2 from by omega,
                show s.i + (t2 + 1) = s.i + 1 + t2 from by omega]
              exact hw2.1
            · rw [show s.d + 4 * (t2 + 1) + 1 = s.d + 4 + 4 * t2 + 1 from by omega,
                show s.i + (t2 + 1) = s.i + 1 + t2 from by omega]
              exact hw2.2
      · intro a ha
        have hu := ihu a (by
          intro t2 ht2
          have h2 := ha (t2 + 1) (by omega)
          have e1 : (gb_next V s).d = s.d + 4 := rfl
          rw [e1]
          refine ⟨?_, ?_⟩
          · have := h2.1
            omega
          · have := h2.2
            omega)
        rw [hu]
        have h0 := ha 0 (by omega)
        show bwrite (bwrite s.frame s.d (packLow (V s.i))) (s.d + 1)
          (packHigh (V s.i)) a = s.frame a
        have hne0 : a ≠ s.d := by have := h0.1; omega
        have hne1 : a ≠ s.d + 1 := by have := h0.2; omega
        simp [bwrite, hne0, hne1]

theorem gb_rows_spec (matrix : PhaseMatrix) (cur nxt : Nat → Nat)
    (cons : List Bool) (V : Nat → Nat → Nat) (g pskip dskip : Nat)
    (hcons : ∀ k, cons.getD k false = true →
      0 < k ∧ ∀ j, j < 8 → V k j = V (k - 1) j) :
    ∀ (h : Nat) (s : GBState),
      (∀ yy, yy < h → ∀ t, t < g → ∀ j, j < 8 →
        V (s.i + yy * g + t) j
          = gvals matrix cur nxt (s.p + yy * (8 * g + pskip) + 8 * t)
              (s.q + yy * (8 * g + pskip) + 8 * t) j) →
      gbBytesInv V s →
      (gb_rows matrix cur nxt cons g pskip dskip h s).p
          = s.p + h * (8 * g + pskip)
      ∧ (gb_rows matrix cur nxt cons g pskip dskip h s).q
          = s.q + h * (8 * g + pskip)
      ∧ (gb_rows matrix cur nxt cons g pskip dskip h s).d
          = s.d + h * (4 * g + dskip)
      ∧ (gb_rows matrix cur nxt cons g pskip dskip h s).i = s.i + h * g
      ∧ gbBytesInv V (gb_rows matrix cur nxt cons g pskip dskip h s)
      ∧ (∀ yy, yy < h → ∀ t, t < g →
          (gb_rows matrix cur nxt cons g pskip dskip h s).frame
              (s.d + yy * (4 * g + dskip) + 4 * t)
            = packLow (V (s.i + yy * g + t))
          ∧ (gb_rows matrix cur nxt cons g pskip dskip h s).frame
              (s.d + yy * (4 * g + dskip) + 4 * t + 1)
            = packHigh (V (s.i + yy * g + t)))
      ∧ (∀ a, (∀ yy, yy < h → ∀ t, t < g →
            a ≠ s.d + yy * (4 * g + dskip) + 4 * t
            ∧ a ≠ s.d + yy * (4 * g + dskip) + 4 * t + 1) →
          (gb_rows matrix cur nxt cons g pskip dskip h s).frame a = s.frame a) := by
  intro h
  induction h with
  | zero =>
      intro s hpos hb
      refine ⟨by simp [gb_rows], by simp [gb_rows], by simp [gb_rows],
        by simp [gb_rows], hb, ?_, ?_⟩
      · intro yy hyy; omega
      · intro a ha; rfl
  | succ h ih =>
      intro s hpos hb
      obtain ⟨r1p, r1q, r1d, r1i, r1b, r1w, r1u⟩ :=
        gb_row_spec matrix cur nxt cons V hcons g s (by
          intro t ht j hj
          simpa using hpos 0 (by omega) t ht j hj) hb
      have hrec : gb_rows matrix cur nxt cons g pskip dskip (h + 1) s
          = gb_rows matrix cur nxt cons g pskip dskip h
              { gb_row matrix cur nxt cons g s with
                p := (gb_row matrix cur nxt cons g s).p + pskip,
                q := (gb_row matrix cur nxt cons g s).q + pskip,
                d := (gb_row matrix cur nxt cons g s).d + dskip } := rfl
      rw [hrec]
      have hb2 : gbBytesInv V
          ({ gb_row matrix cur nxt cons g s with
            p := (gb_row matrix cur nxt cons g s).p + pskip,
            q := (gb_row matrix cur nxt cons g s).q + pskip,
            d := (gb_row matrix cur nxt cons g s).d + dskip } : GBState) := r1b
      have hpos2 : ∀ yy, yy < h → ∀ t, t < g → ∀ j, j < 8 →
          V (({ gb_row matrix cur nxt cons g s with
              p := (gb_row matrix cur nxt cons g s).p + pskip,
              q := (gb_row matrix cur nxt cons g s).q + pskip,
              d := (gb_row matrix cur nxt cons g s).d + dskip } : GBState).i
            + yy * g + t) j
          = gvals matrix cur nxt
              (({ gb_row matrix cur nxt cons g s with
                p := (gb_row matrix cur nxt cons g s).p + pskip,
                q := (gb_row matrix cur nxt cons g s).q + pskip,
                d := (gb_row matrix cur nxt cons g s).d + dskip } : GBState).p
                + yy * (8 * g + pskip) + 8 * t)
              (({ gb_row matrix cur nxt cons g s with
                p := (gb_row matrix cur nxt cons g s).p + pskip,
                q := (gb_row matrix cur nxt cons g s).q + pskip,
                d := (gb_row matrix cur nxt cons g s).d + dskip } : GBState).q
                + yy * (8 * g + pskip) + 8 * t) j := by
        intro yy hyy t ht j hj
        show V ((gb_row matrix cur nxt cons g s).i + yy * g + t) j
          = gvals matrix cur nxt
              ((gb_row matrix cur nxt cons g s).p + pskip + yy * (8 * g + pskip) + 8 * t)
              ((gb_row matrix cur nxt cons g s).q + pskip + yy * (8 * g + pskip) + 8 * t) j
        rw [r1i, r1p, r1q]
        have h2 := hpos (yy + 1) (by omega) t ht j hj
        have e1 : s.i + g + yy * g + t = s.i + (yy + 1) * g + t := by
          rw [Nat.succ_mul yy g]; omega
        have e2 : s.p + 8 * g + pskip + yy * (8 * g + pskip) + 8 * t
            = s.p + (yy + 1) * (8 * g + pskip) + 8 * t := by
          rw [Nat.succ_mul yy (8 * g + pskip)]; omega
        have e3 : s.q + 8 * g + pskip + yy * (8 * g + pskip) + 8 * t
            = s.q + (yy + 1) * (8 * g + pskip) + 8 * t := by
          rw [Nat.succ_mul yy (8 * g + pskip)]; omega
        rw [e1, e2, e3]
        exact h2
      obtain ⟨ihp, ihq, ihd, ihi, ihb, ihw, ihu⟩ := ih _ hpos2 hb2
      refine ⟨?_, ?_, ?_, ?_, ihb, ?_, ?_⟩
      · rw [ihp]
        show (gb_row matrix cur nxt cons g s).p + pskip + h * (8 * g + pskip)
          = s.p + (h + 1) * (8 * g + pskip)
        rw [r1p, Nat.succ_mul h (8 * g + pskip)]
        omega
      · rw [ihq]
        show (gb_row matrix cur nxt cons g s).q + pskip + h * (8 * g + pskip)
          = s.q + (h + 1) * (8 * g + pskip)
        rw [r1q, Nat.succ_mul h (8 * g + pskip)]
        omega
      · rw [ihd]
        show (gb_row matrix cur nxt cons g s).d + dskip + h * (4 * g + dskip)
          = s.d + (h + 1) * (4 * g + dskip)
        rw [r1d, Nat.succ_mul h (4 * g + dskip)]
        omega
      · rw [ihi]
        show (gb_row matrix cur nxt cons g s).i + h * g = s.i + (h + 1) * g
        rw [r1i, Nat.succ_mul h g]
        omega
      · intro yy hyy t ht
        cases yy with
        | zero =>
            have hu0 := ihu (s.d + 4 * t) (by
              intro yy2 hyy2 t2 ht2
              show s.d + 4 * t
                  ≠ (gb_row matrix cur nxt cons g s).d + dskip
                    + yy2 * (4 * g + dskip) + 4 * t2
                ∧ s.d + 4 * t
                  ≠ (gb_row matrix cur nxt cons g s).d + dskip
                    + yy2 * (4 * g + dskip) + 4 * t2 + 1
              rw [r1d]
              have hnn : 0 ≤ yy2 * (4 * g + dskip) := Nat.zero_le _
              omega)
            have hu1 := ihu (s.d + 4 * t + 1) (by
              intro yy2 hyy2 t2 ht2
              show s.d + 4 * t + 1
                  ≠ (gb_row matrix cur nxt cons g s).d + dskip
                    + yy2 * (4 * g + dskip) + 4 * t2
                ∧ s.d + 4 * t + 1
                  ≠ (gb_row matrix cur nxt cons g s).d + dskip
                    + yy2 * (4 * g + dskip) + 4 * t2 + 1
              rw [r1d]
              have hnn : 0 ≤ yy2 * (4 * g + dskip) := Nat.zero_le _
              omega)
            have hw := r1w t ht
            refine ⟨?_, ?_⟩
            · have e1 : s.d + 0 * (4 * g + dskip) + 4 * t = s.d + 4 * t := by omega
              have e2 : s.i + 0 * g + t = s.i + t := by omega
              rw [e1, e2, hu0]
              exact hw.1
            · have e1 : s.d + 0 * (4 * g + dskip) + 4 * t + 1 = s.d + 4 * t + 1 := by
                omega
              have e2 : s.i + 0 * g + t = s.i + t := by omega
              rw [e1, e2, hu1]
              exact hw.2
        | succ yy2 =>
            have hw2 := ihw yy2 (by omega) t ht
            have e3 : s.d + (yy2 + 1) * (4 * g + dskip) + 4 * t
                = (gb_row matrix cur nxt cons g s).d + dskip
                  + yy2 * (4 * g + dskip) + 4 * t := by
              rw [r1d, Nat.succ_mul yy2 (4 * g + dskip)]
              omega
            have e4 : s.i + (yy2 + 1) * g + t
                = (gb_row matrix cur nxt cons g s).i + yy2 * g + t := by
              rw [r1i, Nat.succ_mul yy2 g]
              omega
            refine ⟨?_, ?_⟩
            · rw [e3, e4]
              exact hw2.1
            · have e5 : s.d + (yy2 + 1) * (4 * g + dskip) + 4 * t + 1
                  = (gb_row matrix cur nxt cons g s).d + dskip
                    + yy2 * (4 * g + dskip) + 4 * t + 1 := by
                rw [r1d, Nat.succ_mul yy2 (4 * g + dskip)]
                omega
              rw [e5, e4]
              exact hw2.2
      · intro a ha
        have hu := ihu a (by
          intro yy2 hyy2 t2 ht2
          have h2 := ha (yy2 + 1) (by omega) t2 ht2
          rw [Nat.succ_mul yy2 (4 * g + dskip)] at h2
          show a ≠ (gb_row matrix cur nxt cons g s).d + dskip
              + yy2 * (4 * g + dskip) + 4 * t2
            ∧ a ≠ (gb_row matrix cur nxt cons g s).d + dskip
              + yy2 * (4 * g + dskip) + 4 * t2 + 1
          rw [r1d]
          obtain ⟨ha1, ha2⟩ := h2
          refine ⟨?_, ?_⟩
          · intro hx; apply ha1; omega
          · intro hx; apply ha2; omega)
        rw [hu]
        show (gb_row matrix cur nxt cons g s).frame a = s.frame a
        apply r1u
        intro t2 ht2
        have h0 := ha 0 (by omega) t2 ht2
        obtain ⟨ha1, ha2⟩ := h0
        refine ⟨?_, ?_⟩
        · intro hx; apply ha1; omega
        · intro hx; apply ha2; omega

theorem cc_row_len (cur : Nat → Nat) (buf : List Nat) :
    ∀ (x : Nat) (s : CCState),
      (cc_row cur buf x s).acc.length = s.acc.length + x := by
  intro x
  induction x with
  | zero => intro s; simp [cc_row]
  | succ x ih =>
      intro s
      have hrec : cc_row cur buf (x + 1) s = cc_row cur buf x (cc_step cur buf s) :=
        rfl
      rw [hrec, ih (cc_step cur buf s), cc_step_eq]
      simp
      omega

theorem cc_rows_len (cur : Nat → Nat) (buf : List Nat) (g pskip : Nat) :
    ∀ (h : Nat) (s : CCState),
      (cc_rows cur buf g pskip h s).acc.length = s.acc.length + h * g := by
  intro h
  induction h with
  | zero => intro s; simp [cc_rows]
  | succ h ih =>
      intro s
      have hrec : cc_rows cur buf g pskip (h + 1) s
          = cc_rows cur buf g pskip h
              { cc_row cur buf g s with p := (cc_row cur buf g s).p + pskip } := rfl
      rw [hrec, ih]
      show (cc_row cur buf g s).acc.length + h * g = s.acc.length + (h + 1) * g
      rw [cc_row_len, Nat.succ_mul h g]
      omega

theorem check_consecutive_length (u : Update) (cur : Nat → Nat) :
    (check_consecutive u cur).length
      = u.region.height * (u.region.width / buf_actual_depth) := by
  unfold check_consecutive
  rw [cc_rows_len]
  simp

/-- Flat-index pixel base of group `k` of the traversal (row `k / G`,
group `k % G` with `G` the number of groups per row). -/
def flat_pix (u : Update) (kk : Nat) : Nat :=
  group_pix u (kk / (u.region.width / buf_actual_depth))
    (kk % (u.region.width / buf_actual_depth))

/-- The phase octet of flat group `k` against the previous intensities
and the target intensities produced by the update. -/
def flat_vals (u : Update) (matrix : PhaseMatrix) (cur : Nat → Nat) (kk : Nat) :
    Nat → Nat :=
  gvals matrix cur (generate_batch_intensity u cur) (flat_pix u kk)
    (flat_pix u kk)

theorem check_consecutive_sound (u : Update) (cur : Nat → Nat)
    (hpos : ∀ yy, yy < u.region.height →
      ∀ t, t < u.region.width / buf_actual_depth →
      flat_pix u (yy * (u.region.width / buf_actual_depth) + t)
        = u.region.top * epd_width + u.region.left
          + yy * (8 * (u.region.width / buf_actual_depth)
            + (epd_width - u.region.width)) + 8 * t) :
    ∀ kk, (check_consecutive u cur).getD kk false = true →
      0 < kk ∧ octetF cur (flat_pix u kk) = octetF cur (flat_pix u (kk - 1))
      ∧ octetL u.buffer (8 * kk) = octetL u.buffer (8 * kk - 8) := by
  intro kk hk
  have h0 : ccInv cur u.buffer (flat_pix u)
      { p := u.region.top * epd_width + u.region.left, n := 0,
        first := true, lp := List.replicate 8 0, ln := List.replicate 8 0,
        acc := [] } := by
    refine ⟨by simp, ?_, ?_⟩
    · intro hf; exact absurd hf (by simp)
    · intro kk2 hkk2; exact absurd hkk2 (by simp)
  obtain ⟨_, hinv⟩ := cc_rows_inv cur u.buffer (flat_pix u)
    (u.region.width / buf_actual_depth) (epd_width - u.region.width)
    u.region.height _ (by
      intro yy hyy t ht
      simpa using hpos yy hyy t ht) h0
  refine hinv.2.2 kk ?_
  unfold check_consecutive at hk
  exact hk

set_option maxHeartbeats 2000000 in
/-- C4: every frame produced by batch generation starts as a byte-for-byte
copy of the null (blank) frame `nf` and is modified only in the first two
bytes of the frame pixels inside the update region: every byte that is not
the first or second byte of a group pixel — in particular every byte
outside the active region and the third and fourth byte of every frame
pixel — equals `nf`; and for each group of 8 consecutive pixels the first
two bytes hold the 16-bit little-endian word
`(p0<<14)|(p1<<12)|(p2<<10)|(p3<<8)|(p4<<6)|(p5<<4)|(p6<<2)|p7` where
`p_i` is the phase-matrix entry at (previous intensity, target intensity)
of pixel `i` of the group.  Hypotheses: the region is 8-pixel aligned in
width, lies inside the panel, and all matrix entries are 2-bit phases. -/
theorem c4_batch_frame_bytes (u : Update) (waveform : Waveform)
    (cur nf : Nat → Nat) (k : Nat) (hk : k < waveform.length)
    (hw8 : u.region.width % 8 = 0)
    (hpanel : region_in_panel u.region)
    (hmat : ∀ m : PhaseMatrix, List.Mem m waveform → ∀ a b, m a b < 4) :
    (∀ a, (∀ y, y < u.region.height →
        ∀ g, g < u.region.width / buf_actual_depth →
        a ≠ frame_off u y g ∧ a ≠ frame_off u y g + 1) →
      batch_frame u waveform cur nf k a = nf a)
    ∧ (∀ y, y < u.region.height →
        ∀ g, g < u.region.width / buf_actual_depth →
        batch_frame u waveform cur nf k (frame_off u y g)
          = claim_word u (waveform.getD k matrixInit) cur
              (generate_batch_intensity u cur) y g % 256
        ∧ batch_frame u waveform cur nf k (frame_off u y g + 1)
          = claim_word u (waveform.getD k matrixInit) cur
              (generate_batch_intensity u cur) y g / 256) := by
  have hepd : epd_width = 1872 := rfl
  have hWepd : u.region.width ≤ 1872 := by
    have h1 := hpanel.1
    rw [hepd] at h1
    omega
  have h8G : 8 * (u.region.width / buf_actual_depth) = u.region.width := by
    show 8 * (u.region.width / 8) = u.region.width
    omega
  have hstride : 8 * (u.region.width / buf_actual_depth)
      + (epd_width - u.region.width) = epd_width := by
    rw [h8G, hepd]
    omega
  have hdskip : 4 * (u.region.width / buf_actual_depth)
      + (buf_stride - (u.region.width / buf_actual_depth) * buf_depth)
      = buf_stride := by
    show 4 * (u.region.width / 8) + (1040 - (u.region.width / 8) * 4) = 1040
    omega
  have hframe : batch_frame u waveform cur nf k
      = generate_frame u (waveform.getD k matrixInit) cur
          (generate_batch_intensity u cur) nf := by
    unfold batch_frame generate_batch_frames
    exact listGetD_map
      (fun matrix =>
        generate_frame u matrix cur (generate_batch_intensity u cur) nf)
      waveform k (fun _ => 0) matrixInit hk
  have hm4 : ∀ a b, (waveform.getD k matrixInit) a b < 4 :=
    hmat (waveform.getD k matrixInit) (listGetD_mem waveform k matrixInit hk)
  have hflat : ∀ yy, yy < u.region.height →
      ∀ t, t < u.region.width / buf_actual_depth →
      flat_pix u (yy * (u.region.width / buf_actual_depth) + t)
        = group_pix u yy t := by
    intro yy hyy t ht
    have hG : 0 < u.region.width / buf_actual_depth := by omega
    unfold flat_pix
    have hdiv : (yy * (u.region.width / buf_actual_depth) + t)
        / (u.region.width / buf_actual_depth) = yy := by
      rw [Nat.mul_comm yy (u.region.width / buf_actual_depth),
        Nat.mul_add_div hG, Nat.div_eq_of_lt ht]
      omega
    have hmod : (yy * (u.region.width / buf_actual_depth) + t)
        % (u.region.width / buf_actual_depth) = t := by
      rw [Nat.mul_comm yy (u.region.width / buf_actual_depth),
        Nat.mul_add_mod, Nat.mod_eq_of_lt ht]
    rw [hdiv, hmod]
  have hpix : ∀ yy, yy < u.region.height →
      ∀ t, t < u.region.width / buf_actual_depth →
      group_pix u yy t
        = u.region.top * epd_width + u.region.left
          + yy * (8 * (u.region.width / buf_actual_depth)
            + (epd_width - u.region.width)) + 8 * t := by
    intro yy hyy t ht
    unfold group_pix
    rw [hstride, Nat.add_mul]
    omega
  have hnxt : ∀ kk,
      kk < u.region.height * (u.region.width / buf_actual_depth) →
      ∀ j, j < 8 →
      generate_batch_intensity u cur (flat_pix u kk + j)
        = u.buffer.getD (8 * kk + j) 0 := by
    intro kk hkk j hj
    have hG : 0 < u.region.width / buf_actual_depth := by
      rcases Nat.eq_zero_or_pos (u.region.width / buf_actual_depth) with h0 | h0
      · rw [h0, Nat.mul_zero] at hkk; omega
      · exact h0
    have hy : kk / (u.region.width / buf_actual_depth) < u.region.height :=
      (Nat.div_lt_iff_lt_mul hG).mpr hkk
    have ht : kk % (u.region.width / buf_actual_depth)
        < u.region.width / buf_actual_depth := Nat.mod_lt _ hG
    have h1 : 8 * (kk % (u.region.width / buf_actual_depth)) + j
        < 8 * (u.region.width / buf_actual_depth) := by omega
    have hin : u.region.left
        + 8 * (kk % (u.region.width / buf_actual_depth)) + j < epd_width := by
      have h2 := hpanel.1
      omega
    unfold flat_pix group_pix
    rw [generate_batch_intensity_pointwise u cur
      ((u.region.top + kk / (u.region.width / buf_actual_depth)) * epd_width
        + u.region.left + 8 * (kk % (u.region.width / buf_actual_depth)) + j)
      hpanel.1]
    have hdiv : ((u.region.top + kk / (u.region.width / buf_actual_depth))
          * epd_width
        + u.region.left + 8 * (kk % (u.region.width / buf_actual_depth)) + j)
          / epd_width
        = u.region.top + kk / (u.region.width / buf_actual_depth) := by
      rw [hepd] at hin ⊢
      omega
    have hmod : ((u.region.top + kk / (u.region.width / buf_actual_depth))
          * epd_width
        + u.region.left + 8 * (kk % (u.region.width / buf_actual_depth)) + j)
          % epd_width
        = u.region.left + 8 * (kk % (u.region.width / buf_actual_depth)) + j := by
      rw [hepd] at hin ⊢
      omega
    have hcov : covers u
        ((u.region.top + kk / (u.region.width / buf_actual_depth)) * epd_width
          + u.region.left + 8 * (kk % (u.region.width / buf_actual_depth)) + j) := by
      unfold covers
      rw [hdiv, hmod]
      refine ⟨Nat.le_add_right u.region.top
          (kk / (u.region.width / buf_actual_depth)),
        Nat.add_lt_add_left hy u.region.top,
        le_trans (Nat.le_add_right u.region.left
          (8 * (kk % (u.region.width / buf_actual_depth))))
          (Nat.le_add_right _ j), ?_⟩
      omega
    rw [if_pos hcov]
    unfold written_value
    rw [hdiv, hmod]
    congr 1
    have hdm := Nat.div_add_mod kk (u.region.width / buf_actual_depth)
    have e1 : u.region.top + kk / (u.region.width / buf_actual_depth)
        - u.region.top = kk / (u.region.width / buf_actual_depth) :=
      Nat.add_sub_cancel_left u.region.top
        (kk / (u.region.width / buf_actual_depth))
    rw [e1]
    have e2gen : ∀ ww gg qq : Nat, 8 * gg = ww → qq * ww = 8 * (gg * qq) := by
      intro ww gg qq hww
      rw [← hww]
      ring
    rw [e2gen u.region.width (u.region.width / buf_actual_depth)
      (kk / (u.region.width / buf_actual_depth)) h8G]
    omega
  have hconsV : ∀ kk, (check_consecutive u cur).getD kk false = true →
      0 < kk ∧ ∀ j, j < 8 →
        flat_vals u (waveform.getD k matrixInit) cur kk j
          = flat_vals u (waveform.getD k matrixInit) cur (kk - 1) j := by
    intro kk hbit
    have hlen : kk < u.region.height * (u.region.width / buf_actual_depth) := by
      by_contra hge
      rw [List.getD_eq_default] at hbit
      · exact absurd hbit (by simp)
      · rw [check_consecutive_length]
        omega
    obtain ⟨hk0, hocF, hocL⟩ := check_consecutive_sound u cur (by
      intro yy hyy t ht
      rw [hflat yy hyy t ht]
      exact hpix yy hyy t ht) kk hbit
    refine ⟨hk0, ?_⟩
    intro j hj
    have hcF := octetF_apply cur (flat_pix u kk) (flat_pix u (kk - 1)) hocF j hj
    have hn1 := hnxt kk hlen j hj
    have hn2 := hnxt (kk - 1) (by omega) j hj
    have hbufeq := octetL_apply u.buffer (8 * kk) (8 * kk - 8) hocL j hj
    have e8 : 8 * (kk - 1) + j = 8 * kk - 8 + j := by omega
    rw [e8] at hn2
    unfold flat_vals gvals
    rw [hcF, hn1, hn2, hbufeq]
  have hG0 : gbBytesInv (flat_vals u (waveform.getD k matrixInit) cur)
      ({ p := u.region.top * epd_width + u.region.left,
          q := u.region.top * epd_width + u.region.left,
          d := (margin_top + u.region.top) * buf_stride
            + (margin_left + u.region.left / buf_actual_depth) * buf_depth,
          i := 0, b1 := 0, b2 := 0, frame := nf } : GBState) := by
    intro hi
    exact absurd hi (by simp)
  have hposV : ∀ yy, yy < u.region.height →
      ∀ t, t < u.region.width / buf_actual_depth → ∀ j, j < 8 →
      flat_vals u (waveform.getD k matrixInit) cur
          (({ p := u.region.top * epd_width + u.region.left,
              q := u.region.top * epd_width + u.region.left,
              d := (margin_top + u.region.top) * buf_stride
                + (margin_left + u.region.left / buf_actual_depth) * buf_depth,
              i := 0, b1 := 0, b2 := 0, frame := nf } : GBState).i
            + yy * (u.region.width / buf_actual_depth) + t) j
        = gvals (waveform.getD k matrixInit) cur (generate_batch_intensity u cur)
            (({ p := u.region.top * epd_width + u.region.left,
                q := u.region.top * epd_width + u.region.left,
                d := (margin_top + u.region.top) * buf_stride
                  + (margin_left + u.region.left / buf_actual_depth) * buf_depth,
                i := 0, b1 := 0, b2 := 0, frame := nf } : GBState).p
              + yy * (8 * (u.region.width / buf_actual_depth)
                + (epd_width - u.region.width)) + 8 * t)
            (({ p := u.region.top * epd_width + u.region.left,
                q := u.region.top * epd_width + u.region.left,
                d := (margin_top + u.region.top) * buf_stride
                  + (margin_left + u.region.left / buf_actual_depth) * buf_depth,
                i := 0, b1 := 0, b2 := 0, frame := nf } : GBState).q
              + yy * (8 * (u.region.width / buf_actual_depth)
                + (epd_width - u.region.width)) + 8 * t) j := by
    intro yy hyy t ht j hj
    show flat_vals u (waveform.getD k matrixInit) cur
        (0 + yy * (u.region.width / buf_actual_depth) + t) j
      = gvals (waveform.getD k matrixInit) cur (generate_batch_intensity u cur)
          (u.region.top * epd_width + u.region.left
            + yy * (8 * (u.region.width / buf_actual_depth)
              + (epd_width - u.region.width)) + 8 * t)
          (u.region.top * epd_width + u.region.left
            + yy * (8 * (u.region.width / buf_actual_depth)
              + (epd_width - u.region.width)) + 8 * t) j
    rw [Nat.zero_add]
    unfold flat_vals
    rw [hflat yy hyy t ht, hpix yy hyy t ht]
  obtain ⟨hRp, hRq, hRd, hRi, hRb, hRw, hRu⟩ :=
    gb_rows_spec (waveform.getD k matrixInit) cur
      (generate_batch_intensity u cur) (check_consecutive u cur)
      (flat_vals u (waveform.getD k matrixInit) cur)
      (u.region.width / buf_actual_depth) (epd_width - u.region.width)
      (buf_stride - (u.region.width / buf_actual_depth) * buf_depth)
      hconsV u.region.height
      ({ p := u.region.top * epd_width + u.region.left,
          q := u.region.top * epd_width + u.region.left,
          d := (margin_top + u.region.top) * buf_stride
            + (margin_left + u.region.left / buf_actual_depth) * buf_depth,
          i := 0, b1 := 0, b2 := 0, frame := nf } : GBState)
      hposV hG0
  have hoffeq : ∀ yy t,
      (margin_top + u.region.top) * buf_stride
        + (margin_left + u.region.left / buf_actual_depth) * buf_depth
        + yy * (4 * (u.region.width / buf_actual_depth)
          + (buf_stride - (u.region.width / buf_actual_depth) * buf_depth))
        + 4 * t
      = frame_off u yy t := by
    intro yy t
    rw [hdskip]
    unfold frame_off
    have hbd : buf_depth = 4 := rfl
    rw [hbd]
    omega
  refine ⟨?_, ?_⟩
  · intro a ha
    rw [hframe]
    show (gb_rows (waveform.getD k matrixInit) cur
        (generate_batch_intensity u cur) (check_consecutive u cur)
        (u.region.width / buf_actual_depth) (epd_width - u.region.width)
        (buf_stride - (u.region.width / buf_actual_depth) * buf_depth)
        u.region.height
        ({ p := u.region.top * epd_width + u.region.left,
            q := u.region.top * epd_width + u.region.left,
            d := (margin_top + u.region.top) * buf_stride
              + (margin_left + u.region.left / buf_actual_depth) * buf_depth,
            i := 0, b1 := 0, b2 := 0, frame := nf } : GBState)).frame a = nf a
    rw [hRu a (by
      intro yy hyy t ht
      have h2 := ha yy hyy t ht
      refine ⟨?_, ?_⟩
      · show a ≠ (margin_top + u.region.top) * buf_stride
          + (margin_left + u.region.left / buf_actual_depth) * buf_depth
          + yy * (4 * (u.region.width / buf_actual_depth)
            + (buf_stride - (u.region.width / buf_actual_depth) * buf_depth))
          + 4 * t
        rw [hoffeq yy t]
        exact h2.1
      · show a ≠ (margin_top + u.region.top) * buf_stride
          + (margin_left + u.region.left / buf_actual_depth) * buf_depth
          + yy * (4 * (u.region.width / buf_actual_depth)
            + (buf_stride - (u.region.width / buf_actual_depth) * buf_depth))
          + 4 * t + 1
        rw [hoffeq yy t]
        exact h2.2)]
  · intro y hy g hg
    rw [hframe]
    have hw := hRw y hy g hg
    have hvals : flat_vals u (waveform.getD k matrixInit) cur
        (y * (u.region.width / buf_actual_depth) + g)
      = gvals (waveform.getD k matrixInit) cur (generate_batch_intensity u cur)
          (group_pix u y g) (group_pix u y g) := by
      unfold flat_vals
      rw [hflat y hy g hg]
    have hbnd : ∀ j, j < 8 →
        flat_vals u (waveform.getD k matrixInit) cur
          (y * (u.region.width / buf_actual_depth) + g) j < 4 := by
      intro j hj
      unfold flat_vals gvals
      exact hm4 _ _
    have hpk := pack_word
      (flat_vals u (waveform.getD k matrixInit) cur
        (y * (u.region.width / buf_actual_depth) + g)) hbnd
    have hword : wordOf (flat_vals u (waveform.getD k matrixInit) cur
        (y * (u.region.width / buf_actual_depth) + g))
      = claim_word u (waveform.getD k matrixInit) cur
          (generate_batch_intensity u cur) y g := by
      unfold claim_word
      rw [hvals]
    have hidx : ∀ kk2 : Nat, (0 : Nat) + kk2 = kk2 := fun kk2 => by omega
    refine ⟨?_, ?_⟩
    · have h1 := hw.1
      rw [hidx] at h1
      rw [hoffeq y g] at h1
      show (gb_rows (waveform.getD k matrixInit) cur
          (generate_batch_intensity u cur) (check_consecutive u cur)
          (u.region.width / buf_actual_depth) (epd_width - u.region.width)
          (buf_stride - (u.region.width / buf_actual_depth) * buf_depth)
          u.region.height
          ({ p := u.region.top * epd_width + u.region.left,
              q := u.region.top * epd_width + u.region.left,
              d := (margin_top + u.region.top) * buf_stride
                + (margin_left + u.region.left / buf_actual_depth) * buf_depth,
              i := 0, b1 := 0, b2 := 0, frame := nf } : GBState)).frame
          (frame_off u y g)
        = claim_word u (waveform.getD k matrixInit) cur
            (generate_batch_intensity u cur) y g % 256
      rw [h1, hpk.1, hword]
    · have h1 := hw.2
      rw [hidx] at h1
      rw [hoffeq y g] at h1
      show (gb_rows (waveform.getD k matrixInit) cur
          (generate_batch_intensity u cur) (check_consecutive u cur)
          (u.region.width / buf_actual_depth) (epd_width - u.region.width)
          (buf_stride - (u.region.width / buf_actual_depth) * buf_depth)
          u.region.height
          ({ p := u.region.top * epd_width + u.region.left,
              q := u.region.top * epd_width + u.region.left,
              d := (margin_top + u.region.top) * buf_stride
                + (margin_left + u.region.left / buf_actual_depth) * buf_depth,
              i := 0, b1 := 0, b2 := 0, frame := nf } : GBState)).frame
          (frame_off u y g + 1)
        = claim_word u (waveform.getD k matrixInit) cur
            (generate_batch_intensity u cur) y g / 256
      rw [h1, hpk.2, hword]

/-- Concrete update for the C4 witness: an 8×1 region at the panel
origin with an all-zero buffer. -/
def c4w_u : Update := ⟨[], 0, false, ⟨0, 0, 8, 1⟩, List.replicate 8 0⟩

/-- Concrete one-frame waveform for the C4 witness: every phase is 1. -/
def c4w_wf : Waveform := [fun _ _ => 1]

/-- Witness for C4 at a concrete update, waveform, intensity map and null
frame. -/
theorem c4_witness :
    (0 < c4w_wf.length ∧ c4w_u.region.width % 8 = 0
      ∧ region_in_panel c4w_u.region)
    ∧ ((∀ a, (∀ y, y < c4w_u.region.height →
          ∀ g, g < c4w_u.region.width / buf_actual_depth →
          a ≠ frame_off c4w_u y g ∧ a ≠ frame_off c4w_u y g + 1) →
        batch_frame c4w_u c4w_wf (fun _ => 0) (fun _ => 7) 0 a = 7)
      ∧ (∀ y, y < c4w_u.region.height →
          ∀ g, g < c4w_u.region.width / buf_actual_depth →
          batch_frame c4w_u c4w_wf (fun _ => 0) (fun _ => 7) 0
              (frame_off c4w_u y g)
            = claim_word c4w_u (c4w_wf.getD 0 matrixInit) (fun _ => 0)
                (generate_batch_intensity c4w_u (fun _ => 0)) y g % 256
          ∧ batch_frame c4w_u c4w_wf (fun _ => 0) (fun _ => 7) 0
              (frame_off c4w_u y g + 1)
            = claim_word c4w_u (c4w_wf.getD 0 matrixInit) (fun _ => 0)
                (generate_batch_intensity c4w_u (fun _ => 0)) y g / 256)) :=
  ⟨⟨by decide, by decide, by decide⟩,
    c4_batch_frame_bytes c4w_u c4w_wf (fun _ => 0) (fun _ => 7) 0
      (by decide) (by decide) (by decide)
      (by
        intro m hm a b
        cases hm with
        | head => exact (by decide : (1 : Nat) < 4)
        | tail _ h => cases h)⟩

end Waved